import Mathlib

/-!
Verification of the xiso-ex XDVDFS image extractor.

This file gives a shallow embedding of the core of the xiso-ex crate
(crate root src/lib.rs; the files entry.rs, ftp.rs, meta.rs and cli.rs are
not declared as modules of the crate and are therefore dead code, except
where a theorem explicitly refers to them) and proves properties of the
header locator, the directory tree decoder and the extraction engine.

Modelling conventions:
- bytes are Nat values below 256, byte strings are lists of bytes;
- the image reader is a list of bytes plus a cursor, read_exact fails
  (returns none) exactly when it would run past the end of the data;
- recursion in the decoder is guarded by an explicit fuel parameter;
  exhausted fuel yields the same outcome as an io error (none), and
  theorems are conditioned on a successful run;
- the local filesystem is an association list from paths to contents,
  the ftp server answers SIZE queries from an explicit response script,
  and every sink operation is recorded in an event trace.
-/

/-- Byte string: file and directory names, file contents, raw image data. -/
abbrev ByteStr := List Nat

/-- Destination path, as a list of name components. -/
abbrev FPath := List ByteStr

/-- Little endian decoding of a two byte buffer (u16::from_le_bytes). -/
def u16le : List Nat → Nat
  | [a, b] => a + 256 * b
  | _ => 0

/-- Little endian decoding of a four byte buffer (u32::from_le_bytes). -/
def u32le : List Nat → Nat
  | [a, b, c, d] => a + 256 * b + 65536 * c + 16777216 * d
  | _ => 0

/-- ASCII lowercasing of a single byte; this is String::to_lowercase
restricted to the ASCII names appearing in XDVDFS listings. -/
def lowerByte (b : Nat) : Nat := if 65 ≤ b ∧ b ≤ 90 then b + 32 else b

/-- Case folding of a name, the sort key rec.name.to_lowercase() of parse_dir. -/
def lowerStr (s : ByteStr) : ByteStr := s.map lowerByte

/-- Strict lexicographic order on byte strings; this is the Ord instance of
Rust String (byte-wise lexicographic comparison) used by sort_by_key. -/
def lexLt : List Nat → List Nat → Bool
  | [], [] => false
  | [], _ :: _ => true
  | _ :: _, [] => false
  | a :: as, b :: bs => if a < b then true else if b < a then false else lexLt as bs

/-- Stable insertion of x into a list sorted ascending by key, placing x in
front of the first element whose key is not below the key of x. -/
def insertByKey {α : Type} (key : α → List Nat) (x : α) : List α → List α
  | [] => [x]
  | y :: ys => if lexLt (key y) (key x) then y :: insertByKey key x ys else x :: y :: ys

/-- Stable insertion sort ascending by key; models Vec::sort_by_key, which is
a stable sort ascending by the Ord instance of the key. -/
def sortByKey {α : Type} (key : α → List Nat) : List α → List α
  | [] => []
  | x :: xs => insertByKey key x (sortByKey key xs)

/-- Read only byte source with a seek cursor, modelling the BufReader over
the opened image file. -/
structure Reader where
  data : List Nat
  pos : Nat
deriving Repr, DecidableEq

/-- Models read_exact: succeeds returning exactly n bytes and advancing the
cursor, fails when fewer than n bytes remain. -/
def Reader.readExact (r : Reader) (n : Nat) : Option (List Nat × Reader) :=
  if r.pos + n ≤ r.data.length then
    some ((r.data.drop r.pos).take n, ⟨r.data, r.pos + n⟩)
  else
    none

/-- Models seek(SeekFrom::Start p), which always succeeds. -/
def Reader.seek (r : Reader) (p : Nat) : Reader := ⟨r.data, p⟩

/-- The n bytes of d starting at position p (fewer if d ends early). -/
def bytesAt (d : List Nat) (p n : Nat) : List Nat := (d.drop p).take n

/-- Volume offset candidate for the XGD3 disc layout (const OFFSET_XGD3). -/
def OFFSET_XGD3 : Nat := 0x2080000

/-- Volume offset candidate for the XGD2 disc layout (const OFFSET_XGD2). -/
def OFFSET_XGD2 : Nat := 0xFD90000

/-- Decoded header data of the image (struct IsoMeta of src/lib.rs). -/
structure IsoMeta where
  root_offset : Nat
  root_dir_sector : Nat
  root_dir_size : Nat
  sector_size : Nat
deriving Repr, DecidableEq

/-- The 20 byte magic string MICROSOFT*XBOX*MEDIA as raw bytes. -/
def magicBytes : List Nat :=
  [77, 73, 67, 82, 79, 83, 79, 70, 84, 42, 88, 66, 79, 88, 42, 77, 69, 68, 73, 65]

/-- Embedding of check_magic_string: seek to the offset, read 20 bytes and
compare with the magic; a failed read is an io error (none). -/
def check_magic_string (r : Reader) (offset : Nat) : Option (Bool × Reader) :=
  match (r.seek offset).readExact 20 with
  | none => none
  | some (buffer, r1) => some (buffer == magicBytes, r1)

/-- The two u32 reads following a matched magic; in the source these use
read_exact(..).unwrap(), so a failed read is a panic, modelled as an error. -/
def get_iso_meta_fields (r : Reader) (root_offset sector_size : Nat) :
    Except String (IsoMeta × Reader) :=
  match r.readExact 4 with
  | none => .error "panic: read_exact failed"
  | some (buf1, r1) =>
    match r1.readExact 4 with
    | none => .error "panic: read_exact failed"
    | some (buf2, r2) => .ok (⟨root_offset, u32le buf1, u32le buf2, sector_size⟩, r2)

/-- Embedding of get_iso_meta of src/lib.rs: probe the XGD2 candidate first,
then the XGD3 candidate, each at candidate offset + 0x10000; the first match
fixes root_offset and the two u32 fields after the magic are read. -/
def get_iso_meta (r : Reader) : Except String (IsoMeta × Reader) :=
  let sector_size := 2048
  let header_offset := 0x10000
  match check_magic_string r (header_offset + OFFSET_XGD2) with
  | none => .error "Error detecting XISO type"
  | some (found2, r1) =>
    if found2 then
      get_iso_meta_fields r1 OFFSET_XGD2 sector_size
    else
      match check_magic_string r1 (header_offset + OFFSET_XGD3) with
      | none => .error "Error detecting XISO type"
      | some (found3, r2) =>
        if found3 then get_iso_meta_fields r2 OFFSET_XGD3 sector_size
        else .error "Unsupported XISO format"

/-- Decoded directory node (struct Record of src/lib.rs). The Rust struct
keeps name, sector, size, attributes and subdirectory; the raw left and
right pointers are read into locals by Record::parse and then dropped, and
are kept here as extra fields so the sentinel invariant can be stated. -/
inductive Record where
  | mk (left right : Nat) (name : ByteStr) (sector : Nat) (size : Nat)
       (attributes : Nat) (subdirectory : Option (List Record))

/-- Raw left pointer of the on-disk record. -/
def Record.left : Record → Nat
  | .mk l _ _ _ _ _ _ => l

/-- Raw right pointer of the on-disk record. -/
def Record.right : Record → Nat
  | .mk _ r _ _ _ _ _ => r

/-- Name bytes of the record. -/
def Record.name : Record → ByteStr
  | .mk _ _ n _ _ _ _ => n

/-- Data start sector of the record. -/
def Record.sector : Record → Nat
  | .mk _ _ _ s _ _ _ => s

/-- Byte size of the record data. -/
def Record.size : Record → Nat
  | .mk _ _ _ _ s _ _ => s

/-- Attribute flags of the record; bit 0x10 marks a directory. -/
def Record.attributes : Record → Nat
  | .mk _ _ _ _ _ a _ => a

/-- Resolved children when the record is a directory. -/
def Record.subdirectory : Record → Option (List Record)
  | .mk _ _ _ _ _ _ s => s

mutual

/-- Embedding of Record::parse of src/lib.rs: read left and right pointers,
stop on the 0xFFFF sentinel, otherwise read sector, size, attributes, name
length and name, skip to the next 4 byte aligned position, and for a
directory record eagerly decode the subdirectory, restoring the cursor. -/
def parseRecord : Nat → IsoMeta → Reader → Option (Option Record × Reader)
  | 0, _, _ => none
  | fuel + 1, iso_meta, r0 =>
    match r0.readExact 2 with
    | none => none
    | some (b1, r1) =>
      match r1.readExact 2 with
      | none => none
      | some (b2, r2) =>
        if u16le b1 == 65535 || u16le b2 == 65535 then
          some (none, r2)
        else
          match r2.readExact 4 with
          | none => none
          | some (b3, r3) =>
            match r3.readExact 4 with
            | none => none
            | some (b4, r4) =>
              match r4.readExact 1 with
              | none => none
              | some (b5, r5) =>
                match r5.readExact 1 with
                | none => none
                | some (b6, r6) =>
                  match r6.readExact (b6.headD 0) with
                  | none => none
                  | some (name, r7) =>
                    let r8 := r7.seek (r7.pos + (4 - r7.pos % 4) % 4)
                    let attributes := b5.headD 0
                    if attributes &&& 16 == 16 then
                      match parseDir fuel iso_meta (u32le b4) (u32le b3) r8 with
                      | none => none
                      | some (subdir, r9) =>
                        some (some (.mk (u16le b1) (u16le b2) name (u32le b3) (u32le b4)
                          attributes (some subdir)), r9.seek r8.pos)
                    else
                      some (some (.mk (u16le b1) (u16le b2) name (u32le b3) (u32le b4)
                        attributes none), r8)
termination_by structural fuel => fuel

/-- The while let Some(entry) loop of parse_dir: collect records until the
sentinel, dropping any record whose exact name is already present. -/
def parseLoop : Nat → IsoMeta → List Record → Reader → Option (List Record × Reader)
  | 0, _, _, _ => none
  | fuel + 1, iso_meta, entries, r =>
    match parseRecord fuel iso_meta r with
    | none => none
    | some (oentry, r1) =>
      match oentry with
      | none => some (entries, r1)
      | some entry =>
        if entries.any (fun e => entry.name == e.name) then
          parseLoop fuel iso_meta entries r1
        else
          parseLoop fuel iso_meta (entries ++ [entry]) r1
termination_by structural fuel => fuel

/-- The per-sector loop of parse_dir: for each sector index i below
sector_count, seek to (sector + i) * sector_size + root_offset and run the
record loop, accumulating entries across sectors. -/
def parseSectors : Nat → IsoMeta → Nat → Nat → Nat → List Record → Reader →
    Option (List Record × Reader)
  | 0, _, _, _, _, _, _ => none
  | fuel + 1, iso_meta, sector, i, sector_count, entries, r =>
    if i < sector_count then
      match parseLoop fuel iso_meta entries
          (r.seek ((sector + i) * iso_meta.sector_size + iso_meta.root_offset)) with
      | none => none
      | some (entries1, r2) => parseSectors fuel iso_meta sector (i + 1) sector_count entries1 r2
    else
      some (entries, r)
termination_by structural fuel => fuel

/-- Embedding of parse_dir of src/lib.rs: scan ceil(size / sector_size)
sectors, then sort the collected entries ascending by lowercased name. -/
def parseDir : Nat → IsoMeta → Nat → Nat → Reader → Option (List Record × Reader)
  | 0, _, _, _, _ => none
  | fuel + 1, iso_meta, size, sector, r =>
    let sector_count := size / iso_meta.sector_size +
      (if size % iso_meta.sector_size > 0 then 1 else 0)
    match parseSectors fuel iso_meta sector 0 sector_count [] r with
    | none => none
    | some (entries, r1) => some (sortByKey (fun e => lowerStr e.name) entries, r1)
termination_by structural fuel => fuel

end

/-- Destination kind (enum FsMode of src/lib.rs). -/
inductive FsMode
  | Local
  | FTP
deriving Repr, DecidableEq

/-- Relevant ftp reply status (suppaftp Status); the decoder only ever
distinguishes FileUnavailable from everything else. -/
inductive FtpStatus
  | fileUnavailable
  | otherStatus
deriving Repr, DecidableEq

/-- Embedding of suppaftp FtpError, the error type of ftp_stream.size. -/
inductive FtpError
  | connectionError
  | unexpectedResponse (status : FtpStatus)
  | badResponse
  | invalidAddress
deriving Repr, DecidableEq

/-- One scripted response of the ftp server to a SIZE command. -/
inductive SizeResp
  | okSize (n : Nat)
  | err (e : FtpError)
deriving Repr, DecidableEq

/-- Structured counterpart of the formatted error strings of the source;
each constructor carries the data the source interpolates into the
message, in particular verifyFailed names the destination path. -/
inductive XErr
  | isoRead
  | ftpSizeErr
  | ftpListPanic
  | verifyFailed (path : FPath)
  | stackExhausted
deriving Repr, DecidableEq

/-- Trace of the sink operations an extraction run performs, in order. -/
inductive SinkEvent
  | localCreate (p : FPath)
  | localWrite (p : FPath) (bytes : ByteStr)
  | localFlush (p : FPath)
  | localStat (p : FPath)
  | ftpSize (p : FPath)
  | ftpPut (p : FPath)
  | ftpWrite (p : FPath) (bytes : ByteStr)
  | ftpFinalize
  | removeDirAll (p : FPath)
  | createDirAll (p : FPath)
  | createDir (p : FPath)
deriving Repr, DecidableEq

/-- World state threaded through the extraction engine: the image reader,
the local filesystem (files and directories), the remote directory set,
the scripted ftp SIZE responses, and the event trace. -/
structure St where
  reader : Reader
  localFs : List (FPath × ByteStr)
  localDirs : List FPath
  remoteDirs : List FPath
  ftpSizeScript : List SizeResp
  trace : List SinkEvent
deriving Repr, DecidableEq

/-- Lookup of a file in the local filesystem. -/
def fsLookup (fs : List (FPath × ByteStr)) (p : FPath) : Option ByteStr :=
  match fs.find? (fun kv => kv.1 == p) with
  | some kv => some kv.2
  | none => none

/-- Create or replace a file binding in the local filesystem. -/
def fsSet (fs : List (FPath × ByteStr)) (p : FPath) (v : ByteStr) : List (FPath × ByteStr) :=
  (p, v) :: fs.filter (fun kv => !(kv.1 == p))

/-- Wrapping usize as i32 cast used by the source (size as i32 and
entry.size as i32): reduce modulo 2^32 and reinterpret as signed. -/
def toI32 (n : Nat) : Int :=
  if n % 4294967296 < 2147483648 then ((n % 4294967296 : Nat) : Int)
  else ((n % 4294967296 : Nat) : Int) - 4294967296

/-- Embedding of ftp_check_file_size of src/lib.rs, as a function of the
server response: a numeric reply yields the size cast to i32, an
UnexpectedResponse with status FileUnavailable yields -1 (absent), and
every other error (connection, bad response, invalid address, any other
unexpected response) is the fatal "ftp file size error". -/
def ftp_check_file_size (resp : SizeResp) : Except XErr Int :=
  match resp with
  | .okSize n => .ok (toI32 n)
  | .err .connectionError => .error .ftpSizeErr
  | .err (.unexpectedResponse s) =>
    if s = .fileUnavailable then .ok (-1) else .error .ftpSizeErr
  | .err .badResponse => .error .ftpSizeErr
  | .err .invalidAddress => .error .ftpSizeErr

/-- Embedding of FtpClient::get_file_size of src/ftp.rs, a module that is
never declared by the crate root and is therefore not compiled into the
program. Unlike the active ftp_check_file_size, it special-cases
BadResponse (the garbled size reply of the known server defect) by listing
the parent directory, modelled by parentListing, and taking the size of
the last entry matching the file name; list.last().unwrap() panics when no
entry matches. The numeric reply is cast to i64, which is lossless for
realistic sizes and is modelled without wrapping. -/
def ftp_rs_get_file_size (resp : SizeResp) (parentListing : List (ByteStr × Nat))
    (fileName : ByteStr) : Except XErr Int :=
  match resp with
  | .okSize n => .ok (n : Int)
  | .err (.unexpectedResponse s) =>
    if s = .fileUnavailable then .ok (-1) else .error .ftpSizeErr
  | .err .badResponse =>
    match (parentListing.filter (fun e => e.1 == fileName)).getLast? with
    | some e => .ok (e.2 : Int)
    | none => .error .ftpListPanic
  | .err _ => .error .ftpSizeErr

/-- Advance the reader inside the state by a read_exact of n bytes. -/
def stRead (st : St) (n : Nat) : Option (ByteStr × St) :=
  match st.reader.readExact n with
  | none => none
  | some (b, r) => some (b, { st with reader := r })

/-- One write_all call of the chunk loop: appending to the open local file
for the Local sink, sending the bytes over the data channel for FTP. -/
def writeAll (mode : FsMode) (out_file : FPath) (bytes : ByteStr) (st : St) : St :=
  match mode with
  | .Local =>
    { st with
      localFs := fsSet st.localFs out_file ((fsLookup st.localFs out_file).getD [] ++ bytes)
      trace := st.trace ++ [SinkEvent.localWrite out_file bytes] }
  | .FTP => { st with trace := st.trace ++ [SinkEvent.ftpWrite out_file bytes] }

/-- The for loop over the chunk_count full chunks of extract_record: each
iteration reads buffer_size bytes from the image and writes them to the
sink; a failed read aborts with the io error. -/
def chunkLoop (mode : FsMode) (out_file : FPath) (bufSize : Nat) :
    Nat → St → Except XErr Unit × St
  | 0, st => (.ok (), st)
  | k + 1, st =>
    match stRead st bufSize with
    | none => (.error .isoRead, st)
    | some (buffer, st1) => chunkLoop mode out_file bufSize k (writeAll mode out_file buffer st1)

/-- The post-write verification of extract_record of src/lib.rs: finalize
the put stream and re-query the size over ftp, or flush and stat locally;
a size different from the source size is the fatal verification error
naming the destination path. -/
def finalize_and_verify (mode : FsMode) (entry : Record) (out_file : FPath) (st2 : St) :
    Except XErr Unit × St :=
  match mode with
  | .FTP =>
    let st3 := { st2 with trace := st2.trace ++ [SinkEvent.ftpFinalize] }
    let resp := st3.ftpSizeScript.headD (.err .connectionError)
    let st4 := { st3 with
      ftpSizeScript := st3.ftpSizeScript.tail
      trace := st3.trace ++ [SinkEvent.ftpSize out_file] }
    match ftp_check_file_size resp with
    | .error e => (.error e, st4)
    | .ok file_size =>
      if file_size ≠ toI32 entry.size then (.error (.verifyFailed out_file), st4)
      else (.ok (), st4)
  | .Local =>
    let st3 := { st2 with trace := st2.trace ++ [SinkEvent.localFlush out_file] }
    let size_on_disk := ((fsLookup st3.localFs out_file).getD []).length
    let st4 := { st3 with trace := st3.trace ++ [SinkEvent.localStat out_file] }
    if size_on_disk ≠ entry.size then (.error (.verifyFailed out_file), st4)
    else (.ok (), st4)

/-- The buffer size of extract_record: min(entry.size, 1 MiB). -/
def bufferSizeOf (size : Nat) : Nat := min size 1048576

/-- The full chunk count of extract_record: size / buffer_size, except 0
when the buffer is empty. -/
def chunkCountOf (size : Nat) : Nat :=
  if bufferSizeOf size == 0 then 0 else size / bufferSizeOf size

/-- The streaming and verification tail of extract_record of src/lib.rs:
stream chunk_count chunks of buffer_size = min(size, 1 MiB) bytes, then the
remaining size - buffer_size * chunk_count bytes when the division is not
exact, then finalize and verify. -/
def extract_record_write (mode : FsMode) (entry : Record) (out_file : FPath) (st : St) :
    Except XErr Unit × St :=
  let buffer_size := bufferSizeOf entry.size
  let chunk_count := chunkCountOf entry.size
  match chunkLoop mode out_file buffer_size chunk_count st with
  | (.error e, st1) => (.error e, st1)
  | (.ok _, st1) =>
    let afterLast : Except XErr Unit × St :=
      if 0 < chunk_count ∧ entry.size % buffer_size ≠ 0 then
        let last_chunk_size := entry.size - buffer_size * chunk_count
        match stRead st1 last_chunk_size with
        | none => (.error .isoRead, st1)
        | some (buffer, st2) => (.ok (), writeAll mode out_file buffer st2)
      else (.ok (), st1)
    match afterLast with
    | (.error e, st2) => (.error e, st2)
    | (.ok _, st2) => finalize_and_verify mode entry out_file st2

/-- Embedding of extract_record of src/lib.rs: seek the image to
root_offset + sector * sector_size, then for the Local sink create
(truncate) the destination file unconditionally, while for the FTP sink
first query the destination size and skip the file entirely when it equals
the source size as i32; -1 (absent) and any other size open a write
stream; then stream and verify. -/
def extract_record (iso_meta : IsoMeta) (mode : FsMode) (entry : Record)
    (output_root : FPath) (st : St) : Except XErr Unit × St :=
  let position := iso_meta.root_offset + entry.sector * iso_meta.sector_size
  let st0 := { st with reader := st.reader.seek position }
  let out_file := output_root ++ [entry.name]
  match mode with
  | .Local =>
    let st1 := { st0 with
      localFs := fsSet st0.localFs out_file []
      trace := st0.trace ++ [SinkEvent.localCreate out_file] }
    extract_record_write .Local entry out_file st1
  | .FTP =>
    let resp := st0.ftpSizeScript.headD (.err .connectionError)
    let st1 := { st0 with
      ftpSizeScript := st0.ftpSizeScript.tail
      trace := st0.trace ++ [SinkEvent.ftpSize out_file] }
    match ftp_check_file_size resp with
    | .error e => (.error e, st1)
    | .ok file_size =>
      if file_size = -1 then
        let st2 := { st1 with trace := st1.trace ++ [SinkEvent.ftpPut out_file] }
        extract_record_write .FTP entry out_file st2
      else if file_size ≠ toI32 entry.size then
        let st2 := { st1 with trace := st1.trace ++ [SinkEvent.ftpPut out_file] }
        extract_record_write .FTP entry out_file st2
      else
        (.ok (), st1)

/-- Existence of a local path: Path::exists is true for both files and
directories. -/
def pathExistsLocal (st : St) (p : FPath) : Bool :=
  st.localDirs.contains p || (fsLookup st.localFs p).isSome

/-- Embedding of XIso::dir_exists: filesystem metadata locally, a cwd probe
on the ftp server (modelled by membership in the remote directory set). -/
def dir_exists (mode : FsMode) (p : FPath) (st : St) : Bool :=
  match mode with
  | .Local => pathExistsLocal st p
  | .FTP => st.remoteDirs.contains p

/-- Embedding of XIso::create_dir for either sink. -/
def create_dir (mode : FsMode) (p : FPath) (st : St) : St :=
  match mode with
  | .Local => { st with localDirs := st.localDirs ++ [p], trace := st.trace ++ [SinkEvent.createDir p] }
  | .FTP => { st with remoteDirs := st.remoteDirs ++ [p], trace := st.trace ++ [SinkEvent.createDir p] }

/-- Embedding of extract_records of src/lib.rs: walk the listing; for a
directory ensure the destination directory exists and recurse into its
children; for a file run extract_record and count it. The fuel bounds the
recursion depth into subdirectories (the native call stack of the source);
exhausting it is modelled as an error, so a successful run is unaffected. -/
def extract_records : Nat → IsoMeta → FsMode → List Record → FPath → St →
    Except XErr Nat × St
  | _, _, _, [], _, st => (.ok 0, st)
  | 0, _, _, _ :: _, _, st => (.error .stackExhausted, st)
  | fuel + 1, iso_meta, mode, entry :: rest, root_path, st =>
    if entry.attributes &&& 16 == 16 then
      let new_dir := root_path ++ [entry.name]
      let st1 := if dir_exists mode new_dir st then st else create_dir mode new_dir st
      match entry.subdirectory with
      | some sub =>
        match extract_records fuel iso_meta mode sub new_dir st1 with
        | (.error e, st2) => (.error e, st2)
        | (.ok c1, st2) =>
          match extract_records fuel iso_meta mode rest root_path st2 with
          | (.error e, st3) => (.error e, st3)
          | (.ok c2, st3) => (.ok (c1 + c2), st3)
      | none => extract_records fuel iso_meta mode rest root_path st1
    else
      match extract_record iso_meta mode entry root_path st with
      | (.error e, st1) => (.error e, st1)
      | (.ok _, st1) =>
        match extract_records fuel iso_meta mode rest root_path st1 with
        | (.error e, st2) => (.error e, st2)
        | (.ok c, st2) => (.ok (c + 1), st2)
termination_by structural fuel _ _ _ _ _ => fuel

/-- Number of file (non directory) entries in a decoded tree; the count
extract_records reports on a fully successful run. -/
def countFiles : List Record → Nat
  | [] => 0
  | .mk _ _ _ _ _ attributes subOpt :: rest =>
    (if attributes &&& 16 == 16 then
       match subOpt with
       | some sub => countFiles sub
       | none => 0
     else 1) + countFiles rest

/-- Embedding of the Local branch of XIso::create_out_dir: when the output
path already exists, delete it recursively (remove_dir_all) and recreate
it; otherwise just create it. -/
def create_out_dir_local (out_path : FPath) (st : St) : St :=
  let st1 :=
    if pathExistsLocal st out_path then
      { st with
        localFs := st.localFs.filter (fun kv => !(out_path.isPrefixOf kv.1))
        localDirs := st.localDirs.filter (fun d => !(out_path.isPrefixOf d))
        trace := st.trace ++ [SinkEvent.removeDirAll out_path] }
    else st
  { st1 with localDirs := st1.localDirs ++ [out_path], trace := st1.trace ++ [SinkEvent.createDirAll out_path] }

/-- The literal entry name the skip_update flag filters out. -/
def systemUpdateName : ByteStr := [36, 83, 121, 115, 116, 101, 109, 85, 112, 100, 97, 116, 101]

/-- Embedding of the Local path of XIso::extract_all: prepare the output
directory, optionally drop the top level entry named by systemUpdateName,
then extract the listing. -/
def extract_all_local (fuel : Nat) (iso_meta : IsoMeta) (root : List Record)
    (out_path : FPath) (skip_update : Bool) (st : St) : Except XErr Nat × St :=
  let st1 := create_out_dir_local out_path st
  let entries := if skip_update then root.filter (fun e => !(e.name == systemUpdateName)) else root
  extract_records fuel iso_meta .Local entries out_path st1

/-- Model of bool::then_some with a string payload. -/
def thenSome (b : Bool) (v : String) : Option String := if b then some v else none

/-- Embedding of the credential defaulting of extract_all (src/lib.rs lines
84 and 85): url.username().is_empty().then_some("xbox").unwrap() and
url.password().is_none().then_some("xbox").unwrap(); unwrap of none is a
panic, modelled by the none result. -/
def extract_all_credentials (username : String) (password : Option String) :
    Option (String × String) :=
  match thenSome username.isEmpty "xbox" with
  | none => none
  | some u =>
    match thenSome password.isNone "xbox" with
    | none => none
    | some p => some (u, p)

/-- Write payloads of a trace: the bytes of every write_all call, in order. -/
def writePayloads (tr : List SinkEvent) : List ByteStr :=
  tr.filterMap (fun ev =>
    match ev with
    | .localWrite _ b => some b
    | .ftpWrite _ b => some b
    | _ => none)

/-- The chunk length schedule of extract_record for a given entry size:
chunk_count full chunks of buffer_size bytes, then the remainder when the
division is not exact. -/
def chunkSizes (size : Nat) : List Nat :=
  List.replicate (chunkCountOf size) (bufferSizeOf size) ++
    (if 0 < chunkCountOf size ∧ size % bufferSizeOf size ≠ 0 then
      [size - bufferSizeOf size * chunkCountOf size] else [])

/-- The localWrite events the chunk loop appends when reading k chunks of
bs bytes from position pos of image d. -/
def chunkEvents (f : FPath) (d : List Nat) (pos bs : Nat) : Nat → List SinkEvent
  | 0 => []
  | k + 1 => .localWrite f (bytesAt d pos bs) :: chunkEvents f d (pos + bs) bs k

theorem lexLt_irrefl (a : List Nat) : lexLt a a = false := by
  induction a with
  | nil => rfl
  | cons x xs ih => simp [lexLt, ih]

theorem lexLt_cons (x y : Nat) (xs ys : List Nat) :
    lexLt (x :: xs) (y :: ys) = if x < y then true else if y < x then false else lexLt xs ys :=
  rfl

theorem lexLt_trans {a b c : List Nat} (h1 : lexLt a b = true) (h2 : lexLt b c = true) :
    lexLt a c = true := by
  induction a generalizing b c with
  | nil =>
    cases b with
    | nil => simp [lexLt] at h1
    | cons y ys =>
      cases c with
      | nil => simp [lexLt] at h2
      | cons z zs => simp [lexLt]
  | cons x xs ih =>
    cases b with
    | nil => simp [lexLt] at h1
    | cons y ys =>
      cases c with
      | nil => simp [lexLt] at h2
      | cons z zs =>
        rw [lexLt_cons] at h1 h2 ⊢
        by_cases hxy : x < y
        · by_cases hyz : y < z
          · rw [if_pos (Nat.lt_trans hxy hyz)]
          · rw [if_neg hyz] at h2
            by_cases hzy : z < y
            · rw [if_pos hzy] at h2
              exact absurd h2 (by decide)
            · have hyzeq : y = z := by omega
              subst hyzeq
              rw [if_pos hxy]
        · rw [if_neg hxy] at h1
          by_cases hyx : y < x
          · rw [if_pos hyx] at h1
            exact absurd h1 (by decide)
          · rw [if_neg hyx] at h1
            have hxyeq : x = y := by omega
            subst hxyeq
            by_cases hxz : x < z
            · rw [if_pos hxz]
            · rw [if_neg hxz] at h2 ⊢
              by_cases hzx : z < x
              · rw [if_pos hzx] at h2
                exact absurd h2 (by decide)
              · rw [if_neg hzx] at h2 ⊢
                exact ih h1 h2

theorem lexLt_antisymm {a b : List Nat} (h1 : lexLt a b = false) (h2 : lexLt b a = false) :
    a = b := by
  induction a generalizing b with
  | nil =>
    cases b with
    | nil => rfl
    | cons y ys => simp [lexLt] at h1
  | cons x xs ih =>
    cases b with
    | nil => simp [lexLt] at h2
    | cons y ys =>
      rw [lexLt_cons] at h1 h2
      by_cases hxy : x < y
      · rw [if_pos hxy] at h1
        exact absurd h1 (by decide)
      · rw [if_neg hxy] at h1
        by_cases hyx : y < x
        · rw [if_pos hyx] at h2
          exact absurd h2 (by decide)
        · rw [if_neg hyx] at h1
          rw [if_neg hyx, if_neg hxy] at h2
          have hxyeq : x = y := by omega
          subst hxyeq
          rw [ih h1 h2]

theorem lexLt_asymm {a b : List Nat} (h : lexLt a b = true) : lexLt b a = false := by
  by_contra hc
  have hba : lexLt b a = true := by
    cases hx : lexLt b a with
    | false => exact absurd hx hc
    | true => rfl
  have := lexLt_trans h hba
  rw [lexLt_irrefl] at this
  exact Bool.false_ne_true this

theorem mem_insertByKey {α : Type} (key : α → List Nat) (x z : α) (l : List α)
    (h : z ∈ insertByKey key x l) : z = x ∨ z ∈ l := by
  induction l with
  | nil => simp [insertByKey] at h; simp [h]
  | cons y ys ih =>
    simp only [insertByKey] at h
    by_cases hk : lexLt (key y) (key x) = true
    · simp [hk] at h
      rcases h with h | h
      · simp [h]
      · rcases ih h with h1 | h1
        · simp [h1]
        · simp [h1]
    · simp [hk] at h
      rcases h with h | h | h
      · simp [h]
      · simp [h]
      · simp [h]

theorem insertByKey_perm {α : Type} (key : α → List Nat) (x : α) (l : List α) :
    (insertByKey key x l).Perm (x :: l) := by
  induction l with
  | nil => simp [insertByKey]
  | cons y ys ih =>
    simp only [insertByKey]
    by_cases hk : lexLt (key y) (key x) = true
    · simp only [hk, if_pos]
      exact (List.Perm.cons y ih).trans (List.Perm.swap x y ys)
    · simp [hk]

theorem sortByKey_perm {α : Type} (key : α → List Nat) (l : List α) :
    (sortByKey key l).Perm l := by
  induction l with
  | nil => simp [sortByKey]
  | cons x xs ih =>
    simp only [sortByKey]
    exact (insertByKey_perm key x (sortByKey key xs)).trans (List.Perm.cons x ih)

theorem pairwise_insertByKey {α : Type} (key : α → List Nat) (x : α) (l : List α)
    (h : l.Pairwise (fun a b => lexLt (key b) (key a) = false)) :
    (insertByKey key x l).Pairwise (fun a b => lexLt (key b) (key a) = false) := by
  induction l with
  | nil => simp [insertByKey]
  | cons y ys ih =>
    simp only [insertByKey]
    rcases List.pairwise_cons.mp h with ⟨hy, hys⟩
    by_cases hk : lexLt (key y) (key x) = true
    · simp only [hk, if_pos]
      refine List.pairwise_cons.mpr ⟨?_, ih hys⟩
      intro z hz
      rcases mem_insertByKey key x z ys hz with hzx | hzy
      · subst hzx
        exact lexLt_asymm hk
      · exact hy z hzy
    · have hk' : lexLt (key y) (key x) = false := by
        cases hx : lexLt (key y) (key x) with
        | false => rfl
        | true => exact absurd hx hk
      simp only [hk', Bool.false_eq_true, if_neg, not_false_iff]
      refine List.pairwise_cons.mpr ⟨?_, h⟩
      intro z hz
      rcases List.mem_cons.mp hz with hzy | hzys
      · subst hzy; exact hk'
      · by_contra hc
        have hzx : lexLt (key z) (key x) = true := by
          cases hx : lexLt (key z) (key x) with
          | false => exact absurd hx hc
          | true => rfl
        have hyz : lexLt (key z) (key y) = false := hy z hzys
        cases hyz2 : lexLt (key y) (key z) with
        | true =>
          have hcon := lexLt_trans hyz2 hzx
          rw [hk'] at hcon
          exact absurd hcon (by decide)
        | false =>
          have heq := lexLt_antisymm hyz2 hyz
          rw [heq] at hk'
          rw [hk'] at hzx
          exact absurd hzx (by decide)

theorem sortByKey_pairwise {α : Type} (key : α → List Nat) (l : List α) :
    (sortByKey key l).Pairwise (fun a b => lexLt (key b) (key a) = false) := by
  induction l with
  | nil => simp [sortByKey]
  | cons x xs ih =>
    simp only [sortByKey]
    exact pairwise_insertByKey key x (sortByKey key xs) ih

/-- Sentinel freedom of a decoded record: neither raw pointer is 0xFFFF. -/
def noSentinel (e : Record) : Prop := e.left ≠ 65535 ∧ e.right ≠ 65535

theorem parseRecord_no_sentinel (fuel : Nat) (iso_meta : IsoMeta) (r : Reader)
    (rec : Record) (r' : Reader)
    (h : parseRecord fuel iso_meta r = some (some rec, r')) : noSentinel rec := by
  match fuel with
  | 0 => simp [parseRecord] at h
  | fuel + 1 =>
    rw [parseRecord] at h
    cases h1 : r.readExact 2 with
    | none => rw [h1] at h; exact Option.noConfusion h
    | some p1 =>
      obtain ⟨b1, r1⟩ := p1
      simp only [h1] at h
      cases h2 : r1.readExact 2 with
      | none => rw [h2] at h; exact Option.noConfusion h
      | some p2 =>
        obtain ⟨b2, r2⟩ := p2
        simp only [h2] at h
        by_cases hs : (u16le b1 == 65535 || u16le b2 == 65535) = true
        · rw [if_pos hs] at h
          simp at h
        · rw [if_neg hs] at h
          simp only [Bool.or_eq_true, beq_iff_eq, not_or] at hs
          cases h3 : r2.readExact 4 with
          | none => rw [h3] at h; exact Option.noConfusion h
          | some p3 =>
            obtain ⟨b3, r3⟩ := p3
            simp only [h3] at h
            cases h4 : r3.readExact 4 with
            | none => rw [h4] at h; exact Option.noConfusion h
            | some p4 =>
              obtain ⟨b4, r4⟩ := p4
              simp only [h4] at h
              cases h5 : r4.readExact 1 with
              | none => rw [h5] at h; exact Option.noConfusion h
              | some p5 =>
                obtain ⟨b5, r5⟩ := p5
                simp only [h5] at h
                cases h6 : r5.readExact 1 with
                | none => rw [h6] at h; exact Option.noConfusion h
                | some p6 =>
                  obtain ⟨b6, r6⟩ := p6
                  simp only [h6] at h
                  cases h7 : r6.readExact (b6.headD 0) with
                  | none => rw [h7] at h; exact Option.noConfusion h
                  | some p7 =>
                    obtain ⟨nm, r7⟩ := p7
                    simp only [h7] at h
                    by_cases ha : (b5.headD 0 &&& 16 == 16) = true
                    · rw [if_pos ha] at h
                      cases h8 : parseDir fuel iso_meta (u32le b4) (u32le b3)
                          (r7.seek (r7.pos + (4 - r7.pos % 4) % 4)) with
                      | none => rw [h8] at h; exact Option.noConfusion h
                      | some p8 =>
                        obtain ⟨subdir, r9⟩ := p8
                        simp only [h8, Option.some.injEq, Prod.mk.injEq] at h
                        obtain ⟨hrec, _⟩ := h
                        subst hrec
                        exact ⟨hs.1, hs.2⟩
                    · rw [if_neg ha] at h
                      simp only [Option.some.injEq, Prod.mk.injEq] at h
                      obtain ⟨hrec, _⟩ := h
                      subst hrec
                      exact ⟨hs.1, hs.2⟩

theorem parseLoop_names_nodup (fuel : Nat) : ∀ (iso_meta : IsoMeta) (entries : List Record)
    (r : Reader) (out : List Record) (r' : Reader),
    parseLoop fuel iso_meta entries r = some (out, r') →
    entries.Pairwise (fun a b => a.name ≠ b.name) →
    out.Pairwise (fun a b => a.name ≠ b.name) := by
  induction fuel with
  | zero =>
    intro iso_meta entries r out r' h
    simp [parseLoop] at h
  | succ fuel ih =>
    intro iso_meta entries r out r' h hnd
    rw [parseLoop] at h
    cases hpr : parseRecord fuel iso_meta r with
    | none => rw [hpr] at h; exact Option.noConfusion h
    | some res =>
      obtain ⟨oentry, r1⟩ := res
      cases oentry with
      | none =>
        simp only [hpr, Option.some.injEq, Prod.mk.injEq] at h
        obtain ⟨h1, _⟩ := h
        subst h1
        exact hnd
      | some entry =>
        simp only [hpr] at h
        by_cases hex : (entries.any fun e => entry.name == e.name) = true
        · rw [if_pos hex] at h
          exact ih iso_meta entries r1 out r' h hnd
        · rw [if_neg hex] at h
          refine ih iso_meta (entries ++ [entry]) r1 out r' h ?_
          rw [List.pairwise_append]
          refine ⟨hnd, List.pairwise_singleton _ _, ?_⟩
          intro a ha b hb
          rw [List.mem_singleton] at hb
          subst hb
          have hall := List.any_eq_false.mp (Bool.not_eq_true _ |>.mp hex)
          intro hcontra
          exact absurd (beq_iff_eq.mpr hcontra.symm) (hall a ha)

theorem parseLoop_no_sentinel (fuel : Nat) : ∀ (iso_meta : IsoMeta) (entries : List Record)
    (r : Reader) (out : List Record) (r' : Reader),
    parseLoop fuel iso_meta entries r = some (out, r') →
    (∀ e ∈ entries, noSentinel e) →
    ∀ e ∈ out, noSentinel e := by
  induction fuel with
  | zero =>
    intro iso_meta entries r out r' h
    simp [parseLoop] at h
  | succ fuel ih =>
    intro iso_meta entries r out r' h hns
    rw [parseLoop] at h
    cases hpr : parseRecord fuel iso_meta r with
    | none => rw [hpr] at h; exact Option.noConfusion h
    | some res =>
      obtain ⟨oentry, r1⟩ := res
      cases oentry with
      | none =>
        simp only [hpr, Option.some.injEq, Prod.mk.injEq] at h
        obtain ⟨h1, _⟩ := h
        subst h1
        exact hns
      | some entry =>
        simp only [hpr] at h
        by_cases hex : (entries.any fun e => entry.name == e.name) = true
        · rw [if_pos hex] at h
          exact ih iso_meta entries r1 out r' h hns
        · rw [if_neg hex] at h
          refine ih iso_meta (entries ++ [entry]) r1 out r' h ?_
          intro e he
          rcases List.mem_append.mp he with he1 | he1
          · exact hns e he1
          · rw [List.mem_singleton] at he1
            subst he1
            exact parseRecord_no_sentinel fuel iso_meta r e r1 hpr

theorem parseSectors_names_nodup (fuel : Nat) : ∀ (iso_meta : IsoMeta) (sector i count : Nat)
    (entries : List Record) (r : Reader) (out : List Record) (r' : Reader),
    parseSectors fuel iso_meta sector i count entries r = some (out, r') →
    entries.Pairwise (fun a b => a.name ≠ b.name) →
    out.Pairwise (fun a b => a.name ≠ b.name) := by
  induction fuel with
  | zero =>
    intro iso_meta sector i count entries r out r' h
    simp [parseSectors] at h
  | succ fuel ih =>
    intro iso_meta sector i count entries r out r' h hnd
    rw [parseSectors] at h
    by_cases hi : i < count
    · rw [if_pos hi] at h
      cases hpl : parseLoop fuel iso_meta entries
          (r.seek ((sector + i) * iso_meta.sector_size + iso_meta.root_offset)) with
      | none => rw [hpl] at h; exact Option.noConfusion h
      | some res =>
        obtain ⟨entries1, r2⟩ := res
        simp only [hpl] at h
        exact ih iso_meta sector (i + 1) count entries1 r2 out r' h
          (parseLoop_names_nodup fuel iso_meta entries _ entries1 r2 hpl hnd)
    · rw [if_neg hi] at h
      simp only [Option.some.injEq, Prod.mk.injEq] at h
      obtain ⟨h1, _⟩ := h
      subst h1
      exact hnd

theorem parseSectors_no_sentinel (fuel : Nat) : ∀ (iso_meta : IsoMeta) (sector i count : Nat)
    (entries : List Record) (r : Reader) (out : List Record) (r' : Reader),
    parseSectors fuel iso_meta sector i count entries r = some (out, r') →
    (∀ e ∈ entries, noSentinel e) →
    ∀ e ∈ out, noSentinel e := by
  induction fuel with
  | zero =>
    intro iso_meta sector i count entries r out r' h
    simp [parseSectors] at h
  | succ fuel ih =>
    intro iso_meta sector i count entries r out r' h hns
    rw [parseSectors] at h
    by_cases hi : i < count
    · rw [if_pos hi] at h
      cases hpl : parseLoop fuel iso_meta entries
          (r.seek ((sector + i) * iso_meta.sector_size + iso_meta.root_offset)) with
      | none => rw [hpl] at h; exact Option.noConfusion h
      | some res =>
        obtain ⟨entries1, r2⟩ := res
        simp only [hpl] at h
        exact ih iso_meta sector (i + 1) count entries1 r2 out r' h
          (parseLoop_no_sentinel fuel iso_meta entries _ entries1 r2 hpl hns)
    · rw [if_neg hi] at h
      simp only [Option.some.injEq, Prod.mk.injEq] at h
      obtain ⟨h1, _⟩ := h
      subst h1
      exact hns

theorem parseDir_eq_sorted (fuel : Nat) (iso_meta : IsoMeta) (size sector : Nat) (r : Reader)
    (entries : List Record) (r' : Reader)
    (h : parseDir fuel iso_meta size sector r = some (entries, r')) :
    ∃ raw, parseSectors (fuel - 1) iso_meta sector 0
        (size / iso_meta.sector_size + (if size % iso_meta.sector_size > 0 then 1 else 0)) [] r
        = some (raw, r') ∧ entries = sortByKey (fun e => lowerStr e.name) raw := by
  match fuel with
  | 0 => simp [parseDir] at h
  | fuel + 1 =>
    rw [parseDir] at h
    cases hps : parseSectors fuel iso_meta sector 0
        (size / iso_meta.sector_size + (if size % iso_meta.sector_size > 0 then 1 else 0)) [] r with
    | none => rw [hps] at h; exact Option.noConfusion h
    | some res =>
      obtain ⟨raw, r1⟩ := res
      simp only [hps, Option.some.injEq, Prod.mk.injEq] at h
      obtain ⟨h1, h2⟩ := h
      subst h2
      exact ⟨raw, hps, h1.symm⟩

/-- Metadata record used by the concrete decoder and extractor runs below:
root_offset 0, sector size 2048. -/
def cexMeta : IsoMeta := ⟨0, 0, 0, 2048⟩

/-- A 36 byte directory region inside one sector: a record named "A" (byte
65), a record named "a" (byte 97) and the 0xFFFF sentinel terminator. -/
def cexData : List Nat :=
  [1, 0, 1, 0, 0, 0, 0, 0, 0, 0, 0, 0, 0, 1, 65, 0,
   1, 0, 1, 0, 0, 0, 0, 0, 0, 0, 0, 0, 0, 1, 97, 0,
   255, 255, 255, 255]

/-- The listing parse_dir decodes from cexData. -/
def cexEntries : List Record :=
  [.mk 1 1 [65] 0 0 0 none, .mk 1 1 [97] 0 0 0 none]

/-- C1, counterexample: on an image holding the two distinct names "A" and
"a" in one directory, parse_dir succeeds and returns both entries, their
case folded names are equal, and therefore the listing is not strictly
ascending by case-insensitive name: the claimed strictness fails. -/
theorem parse_dir_not_strictly_sorted_cex :
    parseDir 10 cexMeta 28 0 ⟨cexData, 0⟩ = some (cexEntries, ⟨cexData, 36⟩)
    ∧ cexEntries.map Record.name = [[65], [97]]
    ∧ lowerStr [65] = lowerStr [97]
    ∧ ¬ cexEntries.Pairwise
        (fun a b => lexLt (lowerStr a.name) (lowerStr b.name) = true) := by
  refine ⟨rfl, rfl, rfl, ?_⟩
  intro hp
  rw [show cexEntries
      = [Record.mk 1 1 [65] 0 0 0 none, Record.mk 1 1 [97] 0 0 0 none] from rfl] at hp
  rcases List.pairwise_cons.mp hp with ⟨hhead, _⟩
  have hx := hhead (Record.mk 1 1 [97] 0 0 0 none) (List.mem_cons_self _ _)
  exact absurd hx (by decide)

/-- C1 (amended): every directory level returned by parse_dir is sorted
ascending, not necessarily strictly, by case-insensitive name (entries whose
names differ only by letter case compare equal), and contains no two entries
with an identical exact name. -/
theorem parse_dir_sorted_ci_nodup_names (fuel : Nat) (iso_meta : IsoMeta)
    (size sector : Nat) (r : Reader) (entries : List Record) (r' : Reader)
    (h : parseDir fuel iso_meta size sector r = some (entries, r')) :
    entries.Pairwise (fun a b => lexLt (lowerStr b.name) (lowerStr a.name) = false)
    ∧ entries.Pairwise (fun a b => a.name ≠ b.name) := by
  obtain ⟨raw, hps, hsorted⟩ := parseDir_eq_sorted fuel iso_meta size sector r entries r' h
  subst hsorted
  constructor
  · exact sortByKey_pairwise (fun e => lowerStr e.name) raw
  · have hraw : raw.Pairwise (fun a b => a.name ≠ b.name) :=
      parseSectors_names_nodup _ iso_meta sector 0 _ [] r raw r' hps List.Pairwise.nil
    have hperm := sortByKey_perm (fun e => lowerStr e.name) raw
    exact (hperm.pairwise_iff (by intro a b hab; exact hab.symm)).mpr hraw

/-- Witness for the amended C1 theorem at the concrete cexData image. -/
theorem parse_dir_sorted_ci_nodup_names_witness :
    cexEntries.Pairwise (fun a b => lexLt (lowerStr b.name) (lowerStr a.name) = false)
    ∧ cexEntries.Pairwise (fun a b => a.name ≠ b.name) :=
  parse_dir_sorted_ci_nodup_names 10 cexMeta 28 0 ⟨cexData, 0⟩ cexEntries ⟨cexData, 36⟩ rfl

/-- C7: a record whose raw left or right pointer is the all-ones 16 bit
sentinel never appears in a decoded listing; reading such a record stops the
record loop of that sector (parse returns none after consuming the two
pointers) and emits nothing. -/
theorem parse_dir_no_sentinel_emitted :
    (∀ (fuel : Nat) (iso_meta : IsoMeta) (size sector : Nat) (r : Reader)
        (entries : List Record) (r' : Reader),
        parseDir fuel iso_meta size sector r = some (entries, r') →
        ∀ e ∈ entries, e.left ≠ 65535 ∧ e.right ≠ 65535)
    ∧ (∀ (fuel : Nat) (iso_meta : IsoMeta) (r : Reader),
        r.pos + 4 ≤ r.data.length →
        u16le (bytesAt r.data r.pos 2) = 65535 ∨ u16le (bytesAt r.data (r.pos + 2) 2) = 65535 →
        parseRecord (fuel + 1) iso_meta r = some (none, ⟨r.data, r.pos + 4⟩)) := by
  constructor
  · intro fuel iso_meta size sector r entries r' h e he
    obtain ⟨raw, hps, hsorted⟩ := parseDir_eq_sorted fuel iso_meta size sector r entries r' h
    subst hsorted
    have hmem : e ∈ raw := (sortByKey_perm (fun e => lowerStr e.name) raw).mem_iff.mp he
    exact parseSectors_no_sentinel _ iso_meta sector 0 _ [] r raw r' hps (by intro x hx; cases hx) e hmem
  · intro fuel iso_meta r hlen hs
    have h1 : r.readExact 2 = some (bytesAt r.data r.pos 2, ⟨r.data, r.pos + 2⟩) := by
      unfold Reader.readExact
      rw [if_pos (show r.pos + 2 ≤ r.data.length by omega)]
      rfl
    have h2 : Reader.readExact ⟨r.data, r.pos + 2⟩ 2
        = some (bytesAt r.data (r.pos + 2) 2, ⟨r.data, r.pos + 2 + 2⟩) := by
      unfold Reader.readExact
      rw [if_pos (show r.pos + 2 + 2 ≤ r.data.length by omega)]
      rfl
    have hguard : (u16le (bytesAt r.data r.pos 2) == 65535
        || u16le (bytesAt r.data (r.pos + 2) 2) == 65535) = true := by
      rcases hs with hs | hs <;> simp [hs]
    rw [parseRecord]
    simp only [h1, h2, hguard, if_pos]

/-- A 20 byte directory region holding one record named "A" followed by the
sentinel terminator. -/
def w7data : List Nat :=
  [1, 0, 1, 0, 0, 0, 0, 0, 0, 0, 0, 0, 0, 1, 65, 0, 255, 255, 255, 255]

/-- The single record decoded from w7data. -/
def w7rec : Record := .mk 1 1 [65] 0 0 0 none

/-- Witness for C7 at a concrete image: the decoded record has non sentinel
pointers, and a reader positioned at a sentinel record stops with none. -/
theorem parse_dir_no_sentinel_emitted_witness :
    (w7rec.left ≠ 65535 ∧ w7rec.right ≠ 65535)
    ∧ parseRecord 5 cexMeta ⟨[255, 255, 255, 255], 0⟩ = some (none, ⟨[255, 255, 255, 255], 4⟩) :=
  ⟨parse_dir_no_sentinel_emitted.1 10 cexMeta 20 0 ⟨w7data, 0⟩ [w7rec] ⟨w7data, 20⟩ rfl
      w7rec (List.mem_cons_self _ _),
    parse_dir_no_sentinel_emitted.2 4 cexMeta ⟨[255, 255, 255, 255], 0⟩ (by decide)
      (Or.inl (by decide))⟩

theorem readExact_eq (r : Reader) (n : Nat) (h : r.pos + n ≤ r.data.length) :
    r.readExact n = some (bytesAt r.data r.pos n, ⟨r.data, r.pos + n⟩) := by
  unfold Reader.readExact
  rw [if_pos h]
  rfl

theorem check_magic_string_eq (r : Reader) (offset : Nat)
    (h : offset + 20 ≤ r.data.length) :
    check_magic_string r offset
      = some (bytesAt r.data offset 20 == magicBytes, ⟨r.data, offset + 20⟩) := by
  unfold check_magic_string Reader.seek
  rw [readExact_eq ⟨r.data, offset⟩ 20 h]

theorem get_iso_meta_fields_eq (d : List Nat) (p ro ss : Nat) (h : p + 8 ≤ d.length) :
    get_iso_meta_fields ⟨d, p⟩ ro ss
      = .ok (⟨ro, u32le (bytesAt d p 4), u32le (bytesAt d (p + 4) 4), ss⟩, ⟨d, p + 8⟩) := by
  unfold get_iso_meta_fields
  simp only [readExact_eq ⟨d, p⟩ 4 (by simp; omega),
    readExact_eq ⟨d, p + 4⟩ 4 (by simp; omega)]

/-- C3: the header locator probes the XGD2 candidate first and the XGD3
candidate second, comparing the 20 byte magic at candidate + 0x10000; the
first matching candidate fixes root_offset and the two little endian u32
fields root_dir_sector and root_dir_size immediately after the magic are
read; when neither candidate matches, the result is the format error and no
metadata is produced. -/
theorem get_iso_meta_header_probe (d : List Nat)
    (hlen : OFFSET_XGD2 + 0x10000 + 28 ≤ d.length) :
    (bytesAt d (0x10000 + OFFSET_XGD2) 20 = magicBytes →
      get_iso_meta ⟨d, 0⟩ = .ok (⟨OFFSET_XGD2,
          u32le (bytesAt d (0x10000 + OFFSET_XGD2 + 20) 4),
          u32le (bytesAt d (0x10000 + OFFSET_XGD2 + 24) 4), 2048⟩,
        ⟨d, 0x10000 + OFFSET_XGD2 + 28⟩))
    ∧ (bytesAt d (0x10000 + OFFSET_XGD2) 20 ≠ magicBytes →
       bytesAt d (0x10000 + OFFSET_XGD3) 20 = magicBytes →
      get_iso_meta ⟨d, 0⟩ = .ok (⟨OFFSET_XGD3,
          u32le (bytesAt d (0x10000 + OFFSET_XGD3 + 20) 4),
          u32le (bytesAt d (0x10000 + OFFSET_XGD3 + 24) 4), 2048⟩,
        ⟨d, 0x10000 + OFFSET_XGD3 + 28⟩))
    ∧ (bytesAt d (0x10000 + OFFSET_XGD2) 20 ≠ magicBytes →
       bytesAt d (0x10000 + OFFSET_XGD3) 20 ≠ magicBytes →
      get_iso_meta ⟨d, 0⟩ = .error "Unsupported XISO format") := by
  have h2v : OFFSET_XGD2 = 0xFD90000 := rfl
  have h3v : OFFSET_XGD3 = 0x2080000 := rfl
  have hc2 : check_magic_string ⟨d, 0⟩ (0x10000 + OFFSET_XGD2)
      = some (bytesAt d (0x10000 + OFFSET_XGD2) 20 == magicBytes,
        ⟨d, 0x10000 + OFFSET_XGD2 + 20⟩) :=
    check_magic_string_eq ⟨d, 0⟩ (0x10000 + OFFSET_XGD2) (by simp; omega)
  have hc3 : check_magic_string ⟨d, 0x10000 + OFFSET_XGD2 + 20⟩ (0x10000 + OFFSET_XGD3)
      = some (bytesAt d (0x10000 + OFFSET_XGD3) 20 == magicBytes,
        ⟨d, 0x10000 + OFFSET_XGD3 + 20⟩) :=
    check_magic_string_eq ⟨d, 0x10000 + OFFSET_XGD2 + 20⟩ (0x10000 + OFFSET_XGD3)
      (by simp; omega)
  refine ⟨?_, ?_, ?_⟩
  · intro hmagic
    simp only [get_iso_meta, hc2]
    rw [if_pos (beq_iff_eq.mpr hmagic)]
    have := get_iso_meta_fields_eq d (0x10000 + OFFSET_XGD2 + 20) OFFSET_XGD2 2048
      (by omega)
    rw [this]
  · intro hmagic2 hmagic3
    simp only [get_iso_meta, hc2]
    rw [if_neg (fun hb => hmagic2 (beq_iff_eq.mp hb))]
    simp only [hc3]
    rw [if_pos (beq_iff_eq.mpr hmagic3)]
    have := get_iso_meta_fields_eq d (0x10000 + OFFSET_XGD3 + 20) OFFSET_XGD3 2048
      (by omega)
    rw [this]
  · intro hmagic2 hmagic3
    simp only [get_iso_meta, hc2]
    rw [if_neg (fun hb => hmagic2 (beq_iff_eq.mp hb))]
    simp only [hc3]
    rw [if_neg (fun hb => hmagic3 (beq_iff_eq.mp hb))]

/-- The eight bytes after the magic in the synthetic header image below:
root_dir_sector 4 and root_dir_size 2048, little endian. -/
def w3fields : List Nat := [4, 0, 0, 0, 0, 8, 0, 0]

/-- A synthetic image whose magic sits at the XGD2 candidate: filler up to
0x10000 + OFFSET_XGD2, then the magic, then the two header fields. -/
def w3data : List Nat :=
  List.replicate (0x10000 + 0xFD90000) 1 ++ (magicBytes ++ w3fields)

theorem w3data_drop : w3data.drop (0x10000 + OFFSET_XGD2) = magicBytes ++ w3fields := by
  have h := List.drop_left (List.replicate (0x10000 + 0xFD90000) (1 : Nat))
    (magicBytes ++ w3fields)
  rwa [List.length_replicate] at h

theorem w3data_length : w3data.length = 0x10000 + 0xFD90000 + 28 := by
  rw [w3data, List.length_append, List.length_replicate, List.length_append]
  rfl

/-- Witness for C3: on the synthetic image the probe matches the XGD2
candidate and reads root_dir_sector 4 and root_dir_size 2048. -/
theorem get_iso_meta_header_probe_witness :
    get_iso_meta ⟨w3data, 0⟩ = .ok (⟨OFFSET_XGD2, 4, 2048, 2048⟩,
      ⟨w3data, 0x10000 + OFFSET_XGD2 + 28⟩) := by
  have h2v : OFFSET_XGD2 = 0xFD90000 := rfl
  have hmagic : bytesAt w3data (0x10000 + OFFSET_XGD2) 20 = magicBytes := by
    unfold bytesAt
    rw [w3data_drop]
    rw [show (20 : Nat) = magicBytes.length from rfl]
    exact List.take_left magicBytes w3fields
  have hsector : bytesAt w3data (0x10000 + OFFSET_XGD2 + 20) 4 = [4, 0, 0, 0] := by
    unfold bytesAt
    rw [show (0x10000 + OFFSET_XGD2 + 20) = (0x10000 + OFFSET_XGD2) + 20 from rfl]
    rw [← List.drop_drop, w3data_drop]
    rw [show (20 : Nat) = magicBytes.length from rfl, List.drop_left]
    rfl
  have hsize : bytesAt w3data (0x10000 + OFFSET_XGD2 + 24) 4 = [0, 8, 0, 0] := by
    unfold bytesAt
    rw [show (0x10000 + OFFSET_XGD2 + 24) = (0x10000 + OFFSET_XGD2) + 24 from rfl]
    rw [← List.drop_drop, w3data_drop]
    rw [show (24 : Nat) = magicBytes.length + 4 from rfl, List.drop_append]
    rfl
  have hmain := (get_iso_meta_header_probe w3data
    (by rw [w3data_length]; omega)).1 hmagic
  rw [hmain, hsector, hsize]
  rfl

/-- C6, counterexample: in the compiled program the garbled size reply
(BadResponse) is a fatal error; ftp_check_file_size performs no directory
listing fallback and recovers no size. -/
theorem ftp_size_bad_response_fatal_cex :
    ftp_check_file_size (.err .badResponse) = .error .ftpSizeErr := rfl

/-- C6 (amended): the active remote size query ftp_check_file_size
distinguishes exactly three outcomes - a numeric reply yields the size
(cast to i32), a FileUnavailable reply yields -1 (absent, not an error),
and every other reply, including the garbled BadResponse of the known
server defect, is the fatal size error with no fallback. The parent
directory listing fallback exists only in FtpClient::get_file_size of
src/ftp.rs, a module the crate never compiles. -/
theorem ftp_size_query_classification :
    (∀ n : Nat, ftp_check_file_size (.okSize n) = .ok (toI32 n))
    ∧ ftp_check_file_size (.err (.unexpectedResponse .fileUnavailable)) = .ok (-1)
    ∧ ftp_check_file_size (.err .connectionError) = .error .ftpSizeErr
    ∧ ftp_check_file_size (.err (.unexpectedResponse .otherStatus)) = .error .ftpSizeErr
    ∧ ftp_check_file_size (.err .badResponse) = .error .ftpSizeErr
    ∧ ftp_check_file_size (.err .invalidAddress) = .error .ftpSizeErr
    ∧ (∀ (listing : List (ByteStr × Nat)) (nm : ByteStr) (e : ByteStr × Nat),
        (listing.filter (fun kv => kv.1 == nm)).getLast? = some e →
        ftp_rs_get_file_size (.err .badResponse) listing nm = .ok (e.2 : Int)) := by
  refine ⟨fun n => rfl, rfl, rfl, rfl, rfl, rfl, ?_⟩
  intro listing nm e hlast
  unfold ftp_rs_get_file_size
  rw [hlast]

/-- Witness for the amended C6 theorem at concrete responses. -/
theorem ftp_size_query_classification_witness :
    ftp_check_file_size (.okSize 7) = .ok 7
    ∧ ftp_rs_get_file_size (.err .badResponse) [([107], 42)] [107] = .ok 42 :=
  ⟨ftp_size_query_classification.1 7,
    ftp_size_query_classification.2.2.2.2.2.2 [([107], 42)] [107] ([107], 42) rfl⟩

/-- C9: the credential defaulting of extract_all panics (unwrap of none)
whenever the ftp url embeds a user name or a password; only credential free
urls reach the connection step, with the fixed xbox and xbox pair. -/
theorem extract_all_credentials_panic (username : String) (password : Option String) :
    (username.isEmpty = false ∨ password ≠ none →
      extract_all_credentials username password = none)
    ∧ (username.isEmpty = true ∧ password = none →
      extract_all_credentials username password = some ("xbox", "xbox")) := by
  constructor
  · intro h
    rcases h with h | h
    · simp [extract_all_credentials, thenSome, h]
    · cases hp : password with
      | none => exact absurd hp h
      | some s =>
        cases hu : username.isEmpty <;>
          simp [extract_all_credentials, thenSome, hp, hu]
  · intro h
    obtain ⟨h1, h2⟩ := h
    simp [extract_all_credentials, thenSome, h1, h2]

/-- Witness for C9: an embedded user name panics, a bare url logs in with
the default pair. -/
theorem extract_all_credentials_panic_witness :
    extract_all_credentials "alice" none = none
    ∧ extract_all_credentials "" none = some ("xbox", "xbox") :=
  ⟨(extract_all_credentials_panic "alice" none).1 (Or.inl (by decide)),
    (extract_all_credentials_panic "" none).2 ⟨by decide, rfl⟩⟩

theorem fsLookup_fsSet_self (fs : List (FPath × ByteStr)) (p : FPath) (v : ByteStr) :
    fsLookup (fsSet fs p v) p = some v := by
  unfold fsLookup fsSet
  rw [List.find?_cons_of_pos _ (by simp)]

theorem bytesAt_append_bytesAt (d : List Nat) (p a b : Nat) :
    bytesAt d p a ++ bytesAt d (p + a) b = bytesAt d p (a + b) := by
  unfold bytesAt
  rw [List.take_add, List.drop_drop]

theorem bytesAt_length (d : List Nat) (p n : Nat) (h : p + n ≤ d.length) :
    (bytesAt d p n).length = n := by
  unfold bytesAt
  rw [List.length_take, List.length_drop]
  omega

theorem writeAll_reader (mode : FsMode) (f : FPath) (bytes : ByteStr) (st : St) :
    (writeAll mode f bytes st).reader = st.reader := by
  cases mode <;> rfl

theorem writeAll_script (mode : FsMode) (f : FPath) (bytes : ByteStr) (st : St) :
    (writeAll mode f bytes st).ftpSizeScript = st.ftpSizeScript := by
  cases mode <;> rfl

theorem stRead_eq (st : St) (n : Nat) (h : st.reader.pos + n ≤ st.reader.data.length) :
    stRead st n = some (bytesAt st.reader.data st.reader.pos n,
      { st with reader := ⟨st.reader.data, st.reader.pos + n⟩ }) := by
  unfold stRead
  rw [readExact_eq st.reader n h]

theorem chunkLoop_ok (mode : FsMode) (f : FPath) (bs : Nat) :
    ∀ (k : Nat) (st : St),
    st.reader.pos + bs * k ≤ st.reader.data.length →
    (chunkLoop mode f bs k st).1 = .ok ()
    ∧ (chunkLoop mode f bs k st).2.reader = ⟨st.reader.data, st.reader.pos + bs * k⟩
    ∧ (chunkLoop mode f bs k st).2.ftpSizeScript = st.ftpSizeScript := by
  intro k
  induction k with
  | zero =>
    intro st _
    refine ⟨rfl, ?_, rfl⟩
    simp [chunkLoop]
  | succ k ih =>
    intro st h
    have hms : bs * (k + 1) = bs * k + bs := Nat.mul_succ bs k
    have hbs : st.reader.pos + bs ≤ st.reader.data.length := by omega
    have hread := stRead_eq st bs hbs
    have hW : (writeAll mode f (bytesAt st.reader.data st.reader.pos bs)
        { st with reader := ⟨st.reader.data, st.reader.pos + bs⟩ }).reader
        = ⟨st.reader.data, st.reader.pos + bs⟩ := writeAll_reader ..
    have hWs := writeAll_script mode f (bytesAt st.reader.data st.reader.pos bs)
      { st with reader := ⟨st.reader.data, st.reader.pos + bs⟩ }
    have hih := ih (writeAll mode f (bytesAt st.reader.data st.reader.pos bs)
      { st with reader := ⟨st.reader.data, st.reader.pos + bs⟩ }) (by rw [hW]; simp; omega)
    simp only [chunkLoop, hread]
    refine ⟨hih.1, ?_, ?_⟩
    · rw [hih.2.1, hW]
      simp
      omega
    · rw [hih.2.2, hWs]

theorem chunkLoop_local (f : FPath) (bs : Nat) :
    ∀ (k : Nat) (st : St) (v : ByteStr),
    st.reader.pos + bs * k ≤ st.reader.data.length →
    fsLookup st.localFs f = some v →
    (chunkLoop .Local f bs k st).1 = .ok ()
    ∧ (chunkLoop .Local f bs k st).2.reader = ⟨st.reader.data, st.reader.pos + bs * k⟩
    ∧ fsLookup (chunkLoop .Local f bs k st).2.localFs f
        = some (v ++ bytesAt st.reader.data st.reader.pos (bs * k))
    ∧ (chunkLoop .Local f bs k st).2.trace
        = st.trace ++ chunkEvents f st.reader.data st.reader.pos bs k := by
  intro k
  induction k with
  | zero =>
    intro st v _ hv
    refine ⟨rfl, by simp [chunkLoop], ?_, by simp [chunkLoop, chunkEvents]⟩
    simp [chunkLoop, bytesAt, hv]
  | succ k ih =>
    intro st v h hv
    have hms : bs * (k + 1) = bs * k + bs := Nat.mul_succ bs k
    have hbs : st.reader.pos + bs ≤ st.reader.data.length := by omega
    have hread := stRead_eq st bs hbs
    simp only [chunkLoop, hread]
    set c1 := bytesAt st.reader.data st.reader.pos bs with hc1
    set st1 : St := { st with reader := ⟨st.reader.data, st.reader.pos + bs⟩ } with hst1
    have hWfs : (writeAll .Local f c1 st1).localFs = fsSet st.localFs f (v ++ c1) := by
      simp only [writeAll, hst1]
      rw [show ({ st with reader := ⟨st.reader.data, st.reader.pos + bs⟩ } : St).localFs
        = st.localFs from rfl]
      rw [show fsLookup st.localFs f = some v from hv]
      rfl
    have hWr : (writeAll .Local f c1 st1).reader = ⟨st.reader.data, st.reader.pos + bs⟩ :=
      writeAll_reader ..
    have hWtr : (writeAll .Local f c1 st1).trace
        = st.trace ++ [SinkEvent.localWrite f c1] := rfl
    have hlook : fsLookup (writeAll .Local f c1 st1).localFs f = some (v ++ c1) := by
      rw [hWfs]
      exact fsLookup_fsSet_self ..
    have hih := ih (writeAll .Local f c1 st1) (v ++ c1) (by rw [hWr]; simp; omega) hlook
    refine ⟨hih.1, ?_, ?_, ?_⟩
    · rw [hih.2.1, hWr]
      simp
      omega
    · rw [hih.2.2.1, hWr]
      have hmerge : c1 ++ bytesAt st.reader.data (st.reader.pos + bs) (bs * k)
          = bytesAt st.reader.data st.reader.pos (bs * (k + 1)) := by
        rw [hc1, bytesAt_append_bytesAt]
        congr 1
        omega
      rw [List.append_assoc, hmerge]
    · rw [hih.2.2.2, hWtr, hWr]
      rw [List.append_assoc]
      exact rfl

/-- The localWrite events of one extract_record run for a file of the given
size read from position pos: the full chunks, then the capped last chunk. -/
def writeEventsLocal (f : FPath) (d : List Nat) (pos size : Nat) : List SinkEvent :=
  chunkEvents f d pos (bufferSizeOf size) (chunkCountOf size) ++
    (if 0 < chunkCountOf size ∧ size % bufferSizeOf size ≠ 0 then
      [SinkEvent.localWrite f (bytesAt d (pos + bufferSizeOf size * chunkCountOf size)
        (size - bufferSizeOf size * chunkCountOf size))] else [])

theorem bs_mul_cc_le (size : Nat) :
    bufferSizeOf size * chunkCountOf size ≤ size := by
  unfold bufferSizeOf chunkCountOf
  by_cases h0 : min size 1048576 = 0
  · simp [bufferSizeOf, h0]
  · simp only [bufferSizeOf, beq_iff_eq, h0, if_neg, if_false]
    calc (min size 1048576) * (size / (min size 1048576))
        = size / (min size 1048576) * (min size 1048576) := Nat.mul_comm ..
      _ ≤ size := Nat.div_mul_le_self ..

theorem bs_mul_cc_eq (size : Nat)
    (hno : ¬(0 < chunkCountOf size ∧ size % bufferSizeOf size ≠ 0)) :
    bufferSizeOf size * chunkCountOf size = size := by
  unfold bufferSizeOf chunkCountOf at hno ⊢
  by_cases h0 : min size 1048576 = 0
  · have hsz : size = 0 := by
      rcases Nat.le_total size 1048576 with hle | hle
      · rw [Nat.min_eq_left hle] at h0; exact h0
      · rw [Nat.min_eq_right hle] at h0; omega
    simp [bufferSizeOf, h0, hsz]
  · have hle : min size 1048576 ≤ size := Nat.min_le_left ..
    have hpos : 0 < min size 1048576 := Nat.pos_of_ne_zero h0
    have hccpos : 0 < size / (min size 1048576) := Nat.div_pos hle hpos
    simp only [bufferSizeOf, beq_iff_eq, h0, if_neg, if_false] at hno ⊢
    have hmod : size % (min size 1048576) = 0 := by
      by_cases hm : size % (min size 1048576) = 0
      · exact hm
      · exact absurd ⟨hccpos, hm⟩ hno
    exact Nat.mul_div_cancel' (Nat.dvd_of_mod_eq_zero hmod) ..

theorem extract_record_write_local (entry : Record) (f : FPath) (st : St)
    (hlen : st.reader.pos + entry.size ≤ st.reader.data.length)
    (hv : fsLookup st.localFs f = some []) :
    (extract_record_write .Local entry f st).1 = .ok ()
    ∧ fsLookup (extract_record_write .Local entry f st).2.localFs f
        = some (bytesAt st.reader.data st.reader.pos entry.size)
    ∧ (extract_record_write .Local entry f st).2.trace
        = st.trace ++ writeEventsLocal f st.reader.data st.reader.pos entry.size
          ++ [SinkEvent.localFlush f, SinkEvent.localStat f] := by
  unfold extract_record_write
  have hcle := bs_mul_cc_le entry.size
  have hk : st.reader.pos + bufferSizeOf entry.size * chunkCountOf entry.size
      ≤ st.reader.data.length := by omega
  have hcl := chunkLoop_local f (bufferSizeOf entry.size) (chunkCountOf entry.size) st [] hk hv
  rcases hchunk : chunkLoop .Local f (bufferSizeOf entry.size) (chunkCountOf entry.size) st
    with ⟨res1, st1⟩
  rw [hchunk] at hcl
  simp only at hcl
  obtain ⟨hres1, hr1, hfs1, htr1⟩ := hcl
  subst hres1
  simp only [hchunk]
  by_cases hrem : 0 < chunkCountOf entry.size ∧ entry.size % bufferSizeOf entry.size ≠ 0
  · rw [if_pos hrem]
    have hlast : st1.reader.pos
        + (entry.size - bufferSizeOf entry.size * chunkCountOf entry.size)
        ≤ st1.reader.data.length := by
      rw [hr1]
      simp
      omega
    have hread := stRead_eq st1
      (entry.size - bufferSizeOf entry.size * chunkCountOf entry.size) hlast
    rw [hr1] at hread
    simp only at hread
    simp only [hread]
    unfold finalize_and_verify
    simp only []
    set lastBytes := bytesAt st.reader.data
      (st.reader.pos + bufferSizeOf entry.size * chunkCountOf entry.size)
      (entry.size - bufferSizeOf entry.size * chunkCountOf entry.size) with hlb
    set stt : St := { st1 with reader := ⟨st.reader.data,
      st.reader.pos + bufferSizeOf entry.size * chunkCountOf entry.size
        + (entry.size - bufferSizeOf entry.size * chunkCountOf entry.size)⟩ } with hstt
    have hwafs : (writeAll .Local f lastBytes stt).localFs
        = fsSet st1.localFs f (bytesAt st.reader.data st.reader.pos entry.size) := by
      simp only [writeAll, hstt]
      rw [show ({ st1 with reader := ⟨st.reader.data,
        st.reader.pos + bufferSizeOf entry.size * chunkCountOf entry.size
          + (entry.size - bufferSizeOf entry.size * chunkCountOf entry.size)⟩ } : St).localFs
        = st1.localFs from rfl]
      rw [show fsLookup st1.localFs f
        = some ([] ++ bytesAt st.reader.data st.reader.pos
            (bufferSizeOf entry.size * chunkCountOf entry.size)) from hfs1]
      simp only [Option.getD_some, List.nil_append]
      rw [hlb, bytesAt_append_bytesAt]
      congr 2
      omega
    have hwatr : (writeAll .Local f lastBytes stt).trace
        = st1.trace ++ [SinkEvent.localWrite f lastBytes] := rfl
    have hlook : fsLookup (writeAll .Local f lastBytes stt).localFs f
        = some (bytesAt st.reader.data st.reader.pos entry.size) := by
      rw [hwafs]
      exact fsLookup_fsSet_self ..
    have hlen2 : (bytesAt st.reader.data st.reader.pos entry.size).length = entry.size :=
      bytesAt_length st.reader.data st.reader.pos entry.size hlen
    refine ⟨?_, ?_, ?_⟩
    · simp only [hlook, Option.getD_some]
      rw [if_neg]
      intro hcon
      rw [hlen2] at hcon
      exact hcon rfl
    · simp only [hlook, Option.getD_some]
      rw [if_neg]
      · simp only [hlook]
      · intro hcon
        rw [hlen2] at hcon
        exact hcon rfl
    · simp only [hlook, Option.getD_some]
      rw [if_neg]
      · simp only [hwatr, htr1]
        unfold writeEventsLocal
        rw [if_pos hrem]
        simp [List.append_assoc]
      · intro hcon
        rw [hlen2] at hcon
        exact hcon rfl
  · rw [if_neg hrem]
    have hsz : bufferSizeOf entry.size * chunkCountOf entry.size = entry.size :=
      bs_mul_cc_eq entry.size hrem
    have hfs1e : fsLookup st1.localFs f
        = some (bytesAt st.reader.data st.reader.pos entry.size) := by
      rw [hfs1]
      simp only [List.nil_append]
      rw [hsz]
    have hlen2 : (bytesAt st.reader.data st.reader.pos entry.size).length = entry.size :=
      bytesAt_length st.reader.data st.reader.pos entry.size hlen
    unfold finalize_and_verify
    simp only []
    refine ⟨?_, ?_, ?_⟩
    · simp only [hfs1e, Option.getD_some]
      rw [if_neg]
      intro hcon
      rw [hlen2] at hcon
      exact hcon rfl
    · simp only [hfs1e, Option.getD_some]
      rw [if_neg]
      · simp only [hfs1e]
      · intro hcon
        rw [hlen2] at hcon
        exact hcon rfl
    · simp only [hfs1e, Option.getD_some]
      rw [if_neg]
      · simp only [htr1]
        unfold writeEventsLocal
        rw [if_neg hrem]
        simp [List.append_assoc]
      · intro hcon
        rw [hlen2] at hcon
        exact hcon rfl

theorem writePayloads_chunkEvents (f : FPath) (d : List Nat) (bs : Nat) :
    ∀ (k p : Nat), p + bs * k ≤ d.length →
    (writePayloads (chunkEvents f d p bs k)).map List.length = List.replicate k bs := by
  intro k
  induction k with
  | zero => intro p _; rfl
  | succ k ih =>
    intro p h
    have hms : bs * (k + 1) = bs * k + bs := Nat.mul_succ ..
    have hbs : p + bs ≤ d.length := by omega
    have hchunklen : (bytesAt d p bs).length = bs := bytesAt_length d p bs hbs
    have hih := ih (p + bs) (by omega)
    simp only [chunkEvents]
    rw [show writePayloads (SinkEvent.localWrite f (bytesAt d p bs)
        :: chunkEvents f d (p + bs) bs k)
      = bytesAt d p bs :: writePayloads (chunkEvents f d (p + bs) bs k) from rfl]
    rw [List.map_cons, hchunklen, hih, List.replicate_succ]

theorem writePayloads_append (t1 t2 : List SinkEvent) :
    writePayloads (t1 ++ t2) = writePayloads t1 ++ writePayloads t2 := by
  unfold writePayloads
  rw [List.filterMap_append]

theorem writePayloads_writeEventsLocal (f : FPath) (d : List Nat) (pos size : Nat)
    (hlen : pos + size ≤ d.length) :
    (writePayloads (writeEventsLocal f d pos size)).map List.length = chunkSizes size := by
  have hcle := bs_mul_cc_le size
  unfold writeEventsLocal chunkSizes
  rw [writePayloads_append, List.map_append]
  rw [writePayloads_chunkEvents f d (bufferSizeOf size) (chunkCountOf size) pos (by omega)]
  by_cases hrem : 0 < chunkCountOf size ∧ size % bufferSizeOf size ≠ 0
  · rw [if_pos hrem, if_pos hrem]
    congr 1
    rw [show writePayloads [SinkEvent.localWrite f
        (bytesAt d (pos + bufferSizeOf size * chunkCountOf size)
          (size - bufferSizeOf size * chunkCountOf size))]
      = [bytesAt d (pos + bufferSizeOf size * chunkCountOf size)
          (size - bufferSizeOf size * chunkCountOf size)] from rfl]
    rw [List.map_cons, List.map_nil]
    rw [bytesAt_length d _ _ (by omega)]
  · rw [if_neg hrem, if_neg hrem]
    rfl

theorem chunkSizes_sum (size : Nat) : (chunkSizes size).sum = size := by
  unfold chunkSizes
  have hcle := bs_mul_cc_le size
  by_cases hrem : 0 < chunkCountOf size ∧ size % bufferSizeOf size ≠ 0
  · rw [if_pos hrem]
    rw [List.sum_append, List.sum_replicate, smul_eq_mul]
    rw [show List.sum [size - bufferSizeOf size * chunkCountOf size]
      = size - bufferSizeOf size * chunkCountOf size by simp]
    rw [Nat.mul_comm (chunkCountOf size) (bufferSizeOf size)]
    omega
  · rw [if_neg hrem]
    rw [List.append_nil, List.sum_replicate, smul_eq_mul]
    have hsz := bs_mul_cc_eq size hrem
    rw [Nat.mul_comm (chunkCountOf size) (bufferSizeOf size)]
    omega

/-- The ftpWrite events the chunk loop appends when reading k chunks of bs
bytes from position pos of image d. -/
def chunkEventsFtp (f : FPath) (d : List Nat) (pos bs : Nat) : Nat → List SinkEvent
  | 0 => []
  | k + 1 => .ftpWrite f (bytesAt d pos bs) :: chunkEventsFtp f d (pos + bs) bs k

/-- The payload byte strings of k chunks of bs bytes read from position pos
of image d: the data either sink receives from the chunk loop. -/
def chunkPayloads (d : List Nat) (pos bs : Nat) : Nat → List ByteStr
  | 0 => []
  | k + 1 => bytesAt d pos bs :: chunkPayloads d (pos + bs) bs k

/-- Every write payload of one extract_record run for a file of the given
size read from position pos: the full chunks, then the capped last chunk. -/
def allChunks (d : List Nat) (pos size : Nat) : List ByteStr :=
  chunkPayloads d pos (bufferSizeOf size) (chunkCountOf size) ++
    (if 0 < chunkCountOf size ∧ size % bufferSizeOf size ≠ 0 then
      [bytesAt d (pos + bufferSizeOf size * chunkCountOf size)
        (size - bufferSizeOf size * chunkCountOf size)] else [])

/-- The ftpWrite events of one extract_record run for a file of the given
size read from position pos: the full chunks, then the capped last chunk. -/
def writeEventsFtp (f : FPath) (d : List Nat) (pos size : Nat) : List SinkEvent :=
  chunkEventsFtp f d pos (bufferSizeOf size) (chunkCountOf size) ++
    (if 0 < chunkCountOf size ∧ size % bufferSizeOf size ≠ 0 then
      [SinkEvent.ftpWrite f (bytesAt d (pos + bufferSizeOf size * chunkCountOf size)
        (size - bufferSizeOf size * chunkCountOf size))] else [])

theorem writePayloads_chunkEventsFtp (f : FPath) (d : List Nat) (bs : Nat) :
    ∀ (k p : Nat), writePayloads (chunkEventsFtp f d p bs k) = chunkPayloads d p bs k := by
  intro k
  induction k with
  | zero => intro p; rfl
  | succ k ih =>
    intro p
    simp only [chunkEventsFtp, chunkPayloads]
    rw [show writePayloads (SinkEvent.ftpWrite f (bytesAt d p bs)
        :: chunkEventsFtp f d (p + bs) bs k)
      = bytesAt d p bs :: writePayloads (chunkEventsFtp f d (p + bs) bs k) from rfl]
    rw [ih]

theorem writePayloads_chunkEventsLocal (f : FPath) (d : List Nat) (bs : Nat) :
    ∀ (k p : Nat), writePayloads (chunkEvents f d p bs k) = chunkPayloads d p bs k := by
  intro k
  induction k with
  | zero => intro p; rfl
  | succ k ih =>
    intro p
    simp only [chunkEvents, chunkPayloads]
    rw [show writePayloads (SinkEvent.localWrite f (bytesAt d p bs)
        :: chunkEvents f d (p + bs) bs k)
      = bytesAt d p bs :: writePayloads (chunkEvents f d (p + bs) bs k) from rfl]
    rw [ih]

theorem chunkPayloads_map_length (d : List Nat) (bs : Nat) :
    ∀ (k p : Nat), p + bs * k ≤ d.length →
    (chunkPayloads d p bs k).map List.length = List.replicate k bs := by
  intro k
  induction k with
  | zero => intro p _; rfl
  | succ k ih =>
    intro p h
    have hms : bs * (k + 1) = bs * k + bs := Nat.mul_succ ..
    have hbs : p + bs ≤ d.length := by omega
    simp only [chunkPayloads, List.map_cons]
    rw [bytesAt_length d p bs hbs, ih (p + bs) (by omega), List.replicate_succ]

theorem chunkPayloads_flatten (d : List Nat) (bs : Nat) :
    ∀ (k p : Nat), (chunkPayloads d p bs k).flatten = bytesAt d p (bs * k) := by
  intro k
  induction k with
  | zero => intro p; simp [chunkPayloads, bytesAt]
  | succ k ih =>
    intro p
    simp only [chunkPayloads, List.flatten_cons]
    rw [ih (p + bs), bytesAt_append_bytesAt]
    have hms : bs * (k + 1) = bs * k + bs := Nat.mul_succ bs k
    congr 1
    omega

theorem allChunks_map_length (d : List Nat) (pos size : Nat) (h : pos + size ≤ d.length) :
    (allChunks d pos size).map List.length = chunkSizes size := by
  have hcle := bs_mul_cc_le size
  unfold allChunks chunkSizes
  rw [List.map_append]
  rw [chunkPayloads_map_length d (bufferSizeOf size) (chunkCountOf size) pos (by omega)]
  by_cases hrem : 0 < chunkCountOf size ∧ size % bufferSizeOf size ≠ 0
  · rw [if_pos hrem, if_pos hrem]
    congr 1
    rw [List.map_cons, List.map_nil]
    rw [bytesAt_length d _ _ (by omega)]
  · rw [if_neg hrem, if_neg hrem]
    rfl

theorem allChunks_flatten (d : List Nat) (pos size : Nat) :
    (allChunks d pos size).flatten = bytesAt d pos size := by
  have hcle := bs_mul_cc_le size
  unfold allChunks
  by_cases hrem : 0 < chunkCountOf size ∧ size % bufferSizeOf size ≠ 0
  · rw [if_pos hrem]
    rw [List.flatten_append, chunkPayloads_flatten]
    rw [show List.flatten [bytesAt d (pos + bufferSizeOf size * chunkCountOf size)
        (size - bufferSizeOf size * chunkCountOf size)]
      = bytesAt d (pos + bufferSizeOf size * chunkCountOf size)
        (size - bufferSizeOf size * chunkCountOf size) by simp]
    rw [bytesAt_append_bytesAt]
    congr 1
    omega
  · rw [if_neg hrem]
    rw [List.append_nil, chunkPayloads_flatten]
    rw [bs_mul_cc_eq size hrem]

theorem writePayloads_writeEventsFtp (f : FPath) (d : List Nat) (pos size : Nat) :
    writePayloads (writeEventsFtp f d pos size) = allChunks d pos size := by
  unfold writeEventsFtp allChunks
  rw [writePayloads_append, writePayloads_chunkEventsFtp]
  by_cases hrem : 0 < chunkCountOf size ∧ size % bufferSizeOf size ≠ 0
  · rw [if_pos hrem, if_pos hrem]
    rfl
  · rw [if_neg hrem, if_neg hrem]
    rfl

theorem writePayloads_writeEventsLocal_eq (f : FPath) (d : List Nat) (pos size : Nat) :
    writePayloads (writeEventsLocal f d pos size) = allChunks d pos size := by
  unfold writeEventsLocal allChunks
  rw [writePayloads_append, writePayloads_chunkEventsLocal]
  by_cases hrem : 0 < chunkCountOf size ∧ size % bufferSizeOf size ≠ 0
  · rw [if_pos hrem, if_pos hrem]
    rfl
  · rw [if_neg hrem, if_neg hrem]
    rfl

theorem chunkLoop_ftp (f : FPath) (bs : Nat) :
    ∀ (k : Nat) (st : St),
    st.reader.pos + bs * k ≤ st.reader.data.length →
    (chunkLoop .FTP f bs k st).1 = .ok ()
    ∧ (chunkLoop .FTP f bs k st).2.reader = ⟨st.reader.data, st.reader.pos + bs * k⟩
    ∧ (chunkLoop .FTP f bs k st).2.ftpSizeScript = st.ftpSizeScript
    ∧ (chunkLoop .FTP f bs k st).2.trace
        = st.trace ++ chunkEventsFtp f st.reader.data st.reader.pos bs k := by
  intro k
  induction k with
  | zero =>
    intro st _
    refine ⟨rfl, by simp [chunkLoop], rfl, by simp [chunkLoop, chunkEventsFtp]⟩
  | succ k ih =>
    intro st h
    have hms : bs * (k + 1) = bs * k + bs := Nat.mul_succ bs k
    have hbs : st.reader.pos + bs ≤ st.reader.data.length := by omega
    have hread := stRead_eq st bs hbs
    simp only [chunkLoop, hread]
    set c1 := bytesAt st.reader.data st.reader.pos bs with hc1
    set st1 : St := { st with reader := ⟨st.reader.data, st.reader.pos + bs⟩ } with hst1
    have hWr : (writeAll .FTP f c1 st1).reader = ⟨st.reader.data, st.reader.pos + bs⟩ :=
      writeAll_reader ..
    have hWs : (writeAll .FTP f c1 st1).ftpSizeScript = st.ftpSizeScript := writeAll_script ..
    have hWtr : (writeAll .FTP f c1 st1).trace = st.trace ++ [SinkEvent.ftpWrite f c1] := rfl
    have hih := ih (writeAll .FTP f c1 st1) (by rw [hWr]; simp; omega)
    refine ⟨hih.1, ?_, ?_, ?_⟩
    · rw [hih.2.1, hWr]
      simp
      omega
    · rw [hih.2.2.1, hWs]
    · rw [hih.2.2.2, hWtr, hWr]
      rw [List.append_assoc]
      exact rfl

theorem finalize_and_verify_ftp_trace (entry : Record) (f : FPath) (st2 : St) :
    (finalize_and_verify .FTP entry f st2).2.trace
      = st2.trace ++ [SinkEvent.ftpFinalize, SinkEvent.ftpSize f] := by
  unfold finalize_and_verify
  simp only []
  split
  · simp [List.append_assoc]
  · split
    · simp [List.append_assoc]
    · simp [List.append_assoc]

theorem extract_record_write_ftp_trace (entry : Record) (f : FPath) (st : St)
    (hlen : st.reader.pos + entry.size ≤ st.reader.data.length) :
    (extract_record_write .FTP entry f st).2.trace
      = st.trace ++ writeEventsFtp f st.reader.data st.reader.pos entry.size
        ++ [SinkEvent.ftpFinalize, SinkEvent.ftpSize f] := by
  unfold extract_record_write
  have hcle := bs_mul_cc_le entry.size
  have hk : st.reader.pos + bufferSizeOf entry.size * chunkCountOf entry.size
      ≤ st.reader.data.length := by omega
  have hcl := chunkLoop_ftp f (bufferSizeOf entry.size) (chunkCountOf entry.size) st hk
  rcases hchunk : chunkLoop .FTP f (bufferSizeOf entry.size) (chunkCountOf entry.size) st
    with ⟨res1, st1⟩
  rw [hchunk] at hcl
  simp only at hcl
  obtain ⟨hres1, hr1, hsc1, htr1⟩ := hcl
  subst hres1
  simp only [hchunk]
  by_cases hrem : 0 < chunkCountOf entry.size ∧ entry.size % bufferSizeOf entry.size ≠ 0
  · rw [if_pos hrem]
    have hlast : st1.reader.pos
        + (entry.size - bufferSizeOf entry.size * chunkCountOf entry.size)
        ≤ st1.reader.data.length := by
      rw [hr1]
      simp
      omega
    have hread := stRead_eq st1
      (entry.size - bufferSizeOf entry.size * chunkCountOf entry.size) hlast
    rw [hr1] at hread
    simp only at hread
    simp only [hread]
    set lastBytes := bytesAt st.reader.data
      (st.reader.pos + bufferSizeOf entry.size * chunkCountOf entry.size)
      (entry.size - bufferSizeOf entry.size * chunkCountOf entry.size) with hlb
    set stt : St := { st1 with reader := ⟨st.reader.data,
      st.reader.pos + bufferSizeOf entry.size * chunkCountOf entry.size
        + (entry.size - bufferSizeOf entry.size * chunkCountOf entry.size)⟩ } with hstt
    have hwatr : (writeAll .FTP f lastBytes stt).trace
        = st1.trace ++ [SinkEvent.ftpWrite f lastBytes] := rfl
    rw [finalize_and_verify_ftp_trace entry f (writeAll .FTP f lastBytes stt)]
    rw [hwatr, htr1]
    unfold writeEventsFtp
    rw [if_pos hrem]
    simp [List.append_assoc]
  · rw [if_neg hrem]
    rw [finalize_and_verify_ftp_trace entry f st1]
    rw [htr1]
    unfold writeEventsFtp
    rw [if_neg hrem]
    simp [List.append_assoc]

theorem extract_record_write_ftp (entry : Record) (f : FPath) (st : St)
    (hlen : st.reader.pos + entry.size ≤ st.reader.data.length) :
    (extract_record_write .FTP entry f st).1
      = (match ftp_check_file_size (st.ftpSizeScript.headD (.err .connectionError)) with
        | .error e => .error e
        | .ok file_size =>
          if file_size ≠ toI32 entry.size then .error (.verifyFailed f) else .ok ()) := by
  unfold extract_record_write
  have hcle := bs_mul_cc_le entry.size
  have hk : st.reader.pos + bufferSizeOf entry.size * chunkCountOf entry.size
      ≤ st.reader.data.length := by omega
  have hcl := chunkLoop_ok .FTP f (bufferSizeOf entry.size) (chunkCountOf entry.size) st hk
  rcases hchunk : chunkLoop .FTP f (bufferSizeOf entry.size) (chunkCountOf entry.size) st
    with ⟨res1, st1⟩
  rw [hchunk] at hcl
  simp only at hcl
  obtain ⟨hres1, hr1, hsc1⟩ := hcl
  subst hres1
  simp only [hchunk]
  by_cases hrem : 0 < chunkCountOf entry.size ∧ entry.size % bufferSizeOf entry.size ≠ 0
  · rw [if_pos hrem]
    have hlast : st1.reader.pos
        + (entry.size - bufferSizeOf entry.size * chunkCountOf entry.size)
        ≤ st1.reader.data.length := by
      rw [hr1]
      simp
      omega
    have hread := stRead_eq st1
      (entry.size - bufferSizeOf entry.size * chunkCountOf entry.size) hlast
    rw [hr1] at hread
    simp only at hread
    simp only [hread]
    unfold finalize_and_verify
    simp only []
    have hsc2 : (writeAll .FTP f (bytesAt st.reader.data
        (st.reader.pos + bufferSizeOf entry.size * chunkCountOf entry.size)
        (entry.size - bufferSizeOf entry.size * chunkCountOf entry.size))
        { st1 with reader := ⟨st.reader.data,
          st.reader.pos + bufferSizeOf entry.size * chunkCountOf entry.size
            + (entry.size - bufferSizeOf entry.size * chunkCountOf entry.size)⟩ }).ftpSizeScript
        = st.ftpSizeScript := by
      rw [writeAll_script]
      exact hsc1
    rw [hsc2]
    cases hfc : ftp_check_file_size (st.ftpSizeScript.headD (.err .connectionError)) with
    | error e => rfl
    | ok fs =>
      by_cases hne : fs = toI32 entry.size
      · simp [hne]
      · simp [hne]
  · rw [if_neg hrem]
    unfold finalize_and_verify
    simp only []
    rw [hsc1]
    cases hfc : ftp_check_file_size (st.ftpSizeScript.headD (.err .connectionError)) with
    | error e => rfl
    | ok fs =>
      by_cases hne : fs = toI32 entry.size
      · simp [hne]
      · simp [hne]

/-- C5: extraction of one written file entry streams, for either sink,
exactly entry.size bytes read starting at absolute image offset
root_offset + sector * sector_size, in full chunks of min(size, 1 MiB)
bytes with a last chunk capped by the remaining bytes: the local
destination file ends up holding exactly those bytes, the write payloads
of either sink follow the chunk length schedule and concatenate to exactly
those bytes, and their total equals the entry size. -/
theorem extract_record_stream (iso_meta : IsoMeta) (entry : Record) (root : FPath)
    (stL stF : St)
    (hlenL : iso_meta.root_offset + entry.sector * iso_meta.sector_size + entry.size
      ≤ stL.reader.data.length)
    (htrL : stL.trace = [])
    (hlenF : iso_meta.root_offset + entry.sector * iso_meta.sector_size + entry.size
      ≤ stF.reader.data.length)
    (htrF : stF.trace = [])
    (hscriptF : stF.ftpSizeScript.headD (.err .connectionError)
      = .err (.unexpectedResponse .fileUnavailable)) :
    (extract_record iso_meta .Local entry root stL).1 = .ok ()
    ∧ fsLookup (extract_record iso_meta .Local entry root stL).2.localFs (root ++ [entry.name])
        = some (bytesAt stL.reader.data
            (iso_meta.root_offset + entry.sector * iso_meta.sector_size) entry.size)
    ∧ (bytesAt stL.reader.data (iso_meta.root_offset + entry.sector * iso_meta.sector_size)
        entry.size).length = entry.size
    ∧ (writePayloads (extract_record iso_meta .Local entry root stL).2.trace).map List.length
        = chunkSizes entry.size
    ∧ (writePayloads (extract_record iso_meta .Local entry root stL).2.trace).flatten
        = bytesAt stL.reader.data
            (iso_meta.root_offset + entry.sector * iso_meta.sector_size) entry.size
    ∧ (writePayloads (extract_record iso_meta .FTP entry root stF).2.trace).map List.length
        = chunkSizes entry.size
    ∧ (writePayloads (extract_record iso_meta .FTP entry root stF).2.trace).flatten
        = bytesAt stF.reader.data
            (iso_meta.root_offset + entry.sector * iso_meta.sector_size) entry.size
    ∧ (bytesAt stF.reader.data (iso_meta.root_offset + entry.sector * iso_meta.sector_size)
        entry.size).length = entry.size
    ∧ (chunkSizes entry.size).sum = entry.size := by
  set f := root ++ [entry.name] with hf
  set stw : St := { stL with
    reader := ⟨stL.reader.data, iso_meta.root_offset + entry.sector * iso_meta.sector_size⟩
    localFs := fsSet stL.localFs f []
    trace := stL.trace ++ [SinkEvent.localCreate f] } with hstw
  have hrwL : extract_record iso_meta .Local entry root stL
      = extract_record_write .Local entry f stw := rfl
  have hlen1 : stw.reader.pos + entry.size ≤ stw.reader.data.length := hlenL
  have hv : fsLookup stw.localFs f = some [] := fsLookup_fsSet_self ..
  obtain ⟨h1, h2, h3⟩ := extract_record_write_local entry f stw hlen1 hv
  have hstwtr : stw.trace = [SinkEvent.localCreate f] := by
    rw [hstw]
    show stL.trace ++ [SinkEvent.localCreate f] = _
    rw [htrL]
    rfl
  have hpayL : writePayloads (extract_record iso_meta .Local entry root stL).2.trace
      = allChunks stL.reader.data
          (iso_meta.root_offset + entry.sector * iso_meta.sector_size) entry.size := by
    rw [hrwL, h3, hstwtr]
    rw [writePayloads_append, writePayloads_append]
    rw [show writePayloads [SinkEvent.localCreate f] = [] from rfl]
    rw [show writePayloads [SinkEvent.localFlush f, SinkEvent.localStat f] = [] from rfl]
    rw [List.nil_append, List.append_nil]
    exact writePayloads_writeEventsLocal_eq f stw.reader.data stw.reader.pos entry.size
  set stf2 : St := { stF with
    reader := ⟨stF.reader.data, iso_meta.root_offset + entry.sector * iso_meta.sector_size⟩
    ftpSizeScript := stF.ftpSizeScript.tail
    trace := (stF.trace ++ [SinkEvent.ftpSize f]) ++ [SinkEvent.ftpPut f] } with hstf2
  have hrwF : extract_record iso_meta .FTP entry root stF
      = extract_record_write .FTP entry f stf2 := by
    unfold extract_record
    simp only [hscriptF]
    rw [show ftp_check_file_size (SizeResp.err (FtpError.unexpectedResponse
      FtpStatus.fileUnavailable)) = Except.ok (-1 : Int) from rfl]
    simp only []
    rw [if_pos trivial]
    rfl
  have hlenF2 : stf2.reader.pos + entry.size ≤ stf2.reader.data.length := hlenF
  have htrF2 : stf2.trace = [SinkEvent.ftpSize f, SinkEvent.ftpPut f] := by
    rw [hstf2]
    show (stF.trace ++ [SinkEvent.ftpSize f]) ++ [SinkEvent.ftpPut f] = _
    rw [htrF]
    rfl
  have htrace := extract_record_write_ftp_trace entry f stf2 hlenF2
  have hpayF : writePayloads (extract_record iso_meta .FTP entry root stF).2.trace
      = allChunks stF.reader.data
          (iso_meta.root_offset + entry.sector * iso_meta.sector_size) entry.size := by
    rw [hrwF, htrace, htrF2]
    rw [writePayloads_append, writePayloads_append]
    rw [show writePayloads [SinkEvent.ftpSize f, SinkEvent.ftpPut f] = [] from rfl]
    rw [show writePayloads [SinkEvent.ftpFinalize, SinkEvent.ftpSize f] = [] from rfl]
    rw [List.nil_append, List.append_nil]
    exact writePayloads_writeEventsFtp f stf2.reader.data stf2.reader.pos entry.size
  refine ⟨?_, ?_, bytesAt_length _ _ _ hlenL, ?_, ?_, ?_, ?_, bytesAt_length _ _ _ hlenF,
    chunkSizes_sum entry.size⟩
  · rw [hrwL]
    exact h1
  · rw [hrwL]
    exact h2
  · rw [hpayL]
    exact allChunks_map_length stL.reader.data _ entry.size hlenL
  · rw [hpayL]
    exact allChunks_flatten stL.reader.data _ entry.size
  · rw [hpayF]
    exact allChunks_map_length stF.reader.data _ entry.size hlenF
  · rw [hpayF]
    exact allChunks_flatten stF.reader.data _ entry.size

/-- File entry of size 3 used by the C5 witness. -/
def c5entry : Record := .mk 0 0 [101] 0 3 0 none

/-- Initial state of the C5 witness: a four byte image, empty sink. -/
def c5st : St := ⟨⟨[9, 8, 7, 5], 0⟩, [], [], [], [], []⟩

/-- Remote state of the C5 witness: a four byte image; the remote reports
the file absent, so the write proceeds. -/
def c5stF : St := ⟨⟨[9, 8, 7, 5], 0⟩, [], [], [],
  [.err (.unexpectedResponse .fileUnavailable)], []⟩

/-- Witness for C5 at a concrete three byte file, for both sinks. -/
theorem extract_record_stream_witness :
    (extract_record cexMeta .Local c5entry [] c5st).1 = .ok ()
    ∧ fsLookup (extract_record cexMeta .Local c5entry [] c5st).2.localFs ([] ++ [c5entry.name])
        = some (bytesAt c5st.reader.data
            (cexMeta.root_offset + c5entry.sector * cexMeta.sector_size) c5entry.size)
    ∧ (bytesAt c5st.reader.data (cexMeta.root_offset + c5entry.sector * cexMeta.sector_size)
        c5entry.size).length = c5entry.size
    ∧ (writePayloads (extract_record cexMeta .Local c5entry [] c5st).2.trace).map List.length
        = chunkSizes c5entry.size
    ∧ (writePayloads (extract_record cexMeta .Local c5entry [] c5st).2.trace).flatten
        = bytesAt c5st.reader.data
            (cexMeta.root_offset + c5entry.sector * cexMeta.sector_size) c5entry.size
    ∧ (writePayloads (extract_record cexMeta .FTP c5entry [] c5stF).2.trace).map List.length
        = chunkSizes c5entry.size
    ∧ (writePayloads (extract_record cexMeta .FTP c5entry [] c5stF).2.trace).flatten
        = bytesAt c5stF.reader.data
            (cexMeta.root_offset + c5entry.sector * cexMeta.sector_size) c5entry.size
    ∧ (bytesAt c5stF.reader.data (cexMeta.root_offset + c5entry.sector * cexMeta.sector_size)
        c5entry.size).length = c5entry.size
    ∧ (chunkSizes c5entry.size).sum = c5entry.size :=
  extract_record_stream cexMeta c5entry [] c5st c5stF (by decide) rfl (by decide) rfl rfl

/-- C4: after the bytes of a file entry are written and the stream is
finalized (ftp) or flushed (local), the destination size is re-queried and
compared to the source entry size; a size different from the source size
is the fatal verification error naming the destination path, for either
sink. -/
theorem extract_record_verify_mismatch (iso_meta : IsoMeta) (entry : Record)
    (root : FPath) (st : St) (r2 : SizeResp) (rest : List SizeResp) (k : Int) (stL : St)
    (hscript : st.ftpSizeScript = .err (.unexpectedResponse .fileUnavailable) :: r2 :: rest)
    (hlen : iso_meta.root_offset + entry.sector * iso_meta.sector_size + entry.size
      ≤ st.reader.data.length)
    (hr2 : ftp_check_file_size r2 = .ok k)
    (hk : k ≠ toI32 entry.size)
    (hL : ((fsLookup stL.localFs (root ++ [entry.name])).getD []).length ≠ entry.size) :
    (extract_record iso_meta .FTP entry root st).1
      = .error (.verifyFailed (root ++ [entry.name]))
    ∧ (finalize_and_verify .Local entry (root ++ [entry.name]) stL).1
      = .error (.verifyFailed (root ++ [entry.name]))
    ∧ (finalize_and_verify .Local entry (root ++ [entry.name]) stL).2.trace
      = stL.trace ++ [SinkEvent.localFlush (root ++ [entry.name]),
          SinkEvent.localStat (root ++ [entry.name])] := by
  refine ⟨?_, ?_, ?_⟩
  · unfold extract_record
    simp only [hscript, List.headD_cons, List.tail_cons]
    rw [show ftp_check_file_size (SizeResp.err (FtpError.unexpectedResponse
      FtpStatus.fileUnavailable)) = Except.ok (-1 : Int) from rfl]
    simp only []
    rw [if_pos trivial]
    rw [extract_record_write_ftp entry (root ++ [entry.name]) _ hlen]
    rw [show (({ st with
        reader := st.reader.seek (iso_meta.root_offset + entry.sector * iso_meta.sector_size)
        ftpSizeScript := r2 :: rest
        trace := (st.trace ++ [SinkEvent.ftpSize (root ++ [entry.name])])
          ++ [SinkEvent.ftpPut (root ++ [entry.name])] } : St).ftpSizeScript.headD
        (.err .connectionError)) = r2 from rfl]
    rw [hr2]
    simp only []
    rw [if_pos hk]
  · unfold finalize_and_verify
    simp only []
    rw [if_pos hL]
  · unfold finalize_and_verify
    simp only []
    rw [if_pos hL]
    simp [List.append_assoc]

/-- File entry of size 3 used by the C4 witness. -/
def c4entry : Record := .mk 0 0 [103] 0 3 0 none

/-- Initial state of the C4 witness: the remote reports the file absent,
the write proceeds, and the post write size query answers 5 instead of 3. -/
def c4st : St := ⟨⟨[1, 2, 3], 0⟩, [], [], [],
  [.err (.unexpectedResponse .fileUnavailable), .okSize 5], []⟩

/-- Local sink state of the C4 witness: the destination file holds two
bytes although the source entry size is three. -/
def c4stL : St := ⟨⟨[], 0⟩, [([[103]], [1, 2])], [], [], [], []⟩

/-- Witness for C4: a remote whose post write size query answers five for a
three byte source fails verification, and a local destination left with two
bytes for a three byte source fails verification after flush and stat. -/
theorem extract_record_verify_mismatch_witness :
    (extract_record cexMeta .FTP c4entry [] c4st).1
      = .error (.verifyFailed ([] ++ [c4entry.name]))
    ∧ (finalize_and_verify .Local c4entry ([] ++ [c4entry.name]) c4stL).1
      = .error (.verifyFailed ([] ++ [c4entry.name]))
    ∧ (finalize_and_verify .Local c4entry ([] ++ [c4entry.name]) c4stL).2.trace
      = c4stL.trace ++ [SinkEvent.localFlush ([] ++ [c4entry.name]),
          SinkEvent.localStat ([] ++ [c4entry.name])] :=
  extract_record_verify_mismatch cexMeta c4entry [] c4st (.okSize 5) [] 5 c4stL
    rfl (by decide) rfl (by decide) (by decide)

/-- File entry of size 3 used by the C2 counterexample. -/
def c2entry : Record := .mk 0 0 [102] 0 3 0 none

/-- Initial state of the C2 counterexample: the destination already holds a
file at the target path whose size equals the source entry size. -/
def c2st : St := ⟨⟨[1, 2, 3], 0⟩, [([[102]], [7, 7, 7])], [], [], [], []⟩

/-- C2, counterexample: in Local mode the resume check does not exist.
Although the destination file exists with exactly the source size, the
extraction opens a write stream (File::create truncates), transfers the
bytes and replaces the contents, refuting the claimed skip for the local
sink. -/
theorem local_resume_check_absent_cex :
    (fsLookup c2st.localFs [[102]]).map List.length = some c2entry.size
    ∧ (extract_record cexMeta .Local c2entry [] c2st).1 = .ok ()
    ∧ SinkEvent.localCreate [[102]] ∈ (extract_record cexMeta .Local c2entry [] c2st).2.trace
    ∧ writePayloads (extract_record cexMeta .Local c2entry [] c2st).2.trace = [[1, 2, 3]]
    ∧ fsLookup (extract_record cexMeta .Local c2entry [] c2st).2.localFs [[102]]
        = some [1, 2, 3] := by
  refine ⟨rfl, rfl, by decide, rfl, rfl⟩

/-- C2 (amended): the size equality resume check applies only to the
remote (FTP) sink: when the remote size query answers with exactly the
source entry size (as i32, and distinct from the absent marker -1), the
file is skipped entirely - extraction returns Ok having consumed only the
size query, with no write stream opened and no bytes transferred. The
local sink performs no resume check and always recreates the file. -/
theorem resume_check_remote_only (iso_meta : IsoMeta) (entry : Record) (root : FPath)
    (st : St) (n : Nat)
    (hhead : st.ftpSizeScript.headD (.err .connectionError) = .okSize n)
    (hne : toI32 n ≠ -1)
    (heq : toI32 n = toI32 entry.size) :
    extract_record iso_meta .FTP entry root st
      = (.ok (), { st with
          reader := ⟨st.reader.data, iso_meta.root_offset + entry.sector * iso_meta.sector_size⟩
          ftpSizeScript := st.ftpSizeScript.tail
          trace := st.trace ++ [SinkEvent.ftpSize (root ++ [entry.name])] }) := by
  unfold extract_record
  simp only [hhead]
  rw [show ftp_check_file_size (SizeResp.okSize n) = Except.ok (toI32 n) from rfl]
  simp only []
  rw [if_neg hne, heq]
  rw [if_neg (show ¬ toI32 entry.size ≠ toI32 entry.size from fun hc => hc rfl)]
  rfl

/-- File entry of size 3 used by the C2 witness. -/
def w2entry : Record := .mk 0 0 [104] 0 3 0 none

/-- Initial state of the C2 witness: the remote size query answers 3. -/
def w2st : St := ⟨⟨[1, 2, 3], 0⟩, [], [], [], [.okSize 3], []⟩

/-- Witness for the amended C2 theorem: the remote already has the file at
the right size and the run skips it, recording only the size query. -/
theorem resume_check_remote_only_witness :
    extract_record cexMeta .FTP w2entry [] w2st
      = (.ok (), { w2st with
          reader := ⟨[1, 2, 3], 0⟩
          ftpSizeScript := []
          trace := [SinkEvent.ftpSize [[104]]] }) :=
  resume_check_remote_only cexMeta w2entry [] w2st 3 rfl (by decide) rfl

/-- C8: in Local mode, when the destination root already exists,
extract_all deletes the whole pre-existing tree (remove_dir_all) and
recreates the directory before extraction starts, so no file under the
destination root survives into the extraction phase. -/
theorem extract_all_local_replaces_out_dir (fuel : Nat) (iso_meta : IsoMeta)
    (root : List Record) (out_path : FPath) (skip_update : Bool) (st : St)
    (hex : pathExistsLocal st out_path = true) :
    (∀ p, out_path.isPrefixOf p = true →
      fsLookup (create_out_dir_local out_path st).localFs p = none)
    ∧ (create_out_dir_local out_path st).localDirs.contains out_path = true
    ∧ extract_all_local fuel iso_meta root out_path skip_update st
        = extract_records fuel iso_meta .Local
            (if skip_update then root.filter (fun e => !(e.name == systemUpdateName)) else root)
            out_path (create_out_dir_local out_path st) := by
  refine ⟨?_, ?_, rfl⟩
  · intro p hp
    unfold create_out_dir_local
    rw [if_pos hex]
    simp only []
    unfold fsLookup
    rw [List.find?_eq_none.mpr]
    intro kv hkv
    rw [List.mem_filter] at hkv
    obtain ⟨_, hkv2⟩ := hkv
    intro hbeq
    rw [beq_iff_eq] at hbeq
    rw [hbeq] at hkv2
    rw [hp] at hkv2
    exact absurd hkv2 (by decide)
  · unfold create_out_dir_local
    rw [if_pos hex]
    simp

/-- Destination state of the C8 witness: the output directory o exists and
holds a file o/x; a sibling file z also exists. -/
def c8st : St := ⟨⟨[], 0⟩, [([[111], [120]], [6, 6]), ([[122]], [9])], [[[111]]], [], [], []⟩

/-- Witness for C8: after preparing the existing output directory o, the
previously extracted file o/x is gone and o exists again. -/
theorem extract_all_local_replaces_out_dir_witness :
    fsLookup (create_out_dir_local [[111]] c8st).localFs [[111], [120]] = none
    ∧ (create_out_dir_local [[111]] c8st).localDirs.contains [[111]] = true :=
  ⟨(extract_all_local_replaces_out_dir 3 cexMeta [] [[111]] false c8st rfl).1
      [[111], [120]] (by decide),
    (extract_all_local_replaces_out_dir 3 cexMeta [] [[111]] false c8st rfl).2.1⟩

/-- C10: the file count extract_records returns on a successful run counts
every non directory entry visited, exactly once, including files the
remote resume check skipped: a skip returns Ok from extract_record and the
caller still increments the count. -/
theorem extract_records_count_includes_skipped :
    ∀ (fuel : Nat) (iso_meta : IsoMeta) (mode : FsMode) (entries : List Record)
      (root : FPath) (st : St) (c : Nat) (st2 : St),
    extract_records fuel iso_meta mode entries root st = (.ok c, st2) →
    c = countFiles entries := by
  intro fuel
  induction fuel with
  | zero =>
    intro iso_meta mode entries root st c st2 h
    cases entries with
    | nil =>
      simp only [extract_records, Prod.mk.injEq] at h
      obtain ⟨h1, _⟩ := h
      cases h1
      simp [countFiles]
    | cons e rest =>
      simp only [extract_records, Prod.mk.injEq] at h
      obtain ⟨h1, _⟩ := h
      exact absurd h1 (by simp)
  | succ fuel ih =>
    intro iso_meta mode entries root st c st2 h
    cases entries with
    | nil =>
      simp only [extract_records, Prod.mk.injEq] at h
      obtain ⟨h1, _⟩ := h
      cases h1
      simp [countFiles]
    | cons e rest =>
      obtain ⟨el, er, en, esec, esz, ea, esub⟩ := e
      rw [extract_records] at h
      simp only [Record.attributes, Record.subdirectory, Record.name] at h
      by_cases hdir : (ea &&& 16 == 16) = true
      · rw [if_pos hdir] at h
        cases esub with
        | some sub =>
          simp only at h
          rcases hrec1 : extract_records fuel iso_meta mode sub
              (root ++ [en])
              (if dir_exists mode (root ++ [en]) st then st
                else create_dir mode (root ++ [en]) st) with ⟨res1, stx⟩
          rw [hrec1] at h
          cases res1 with
          | error e1 =>
            simp only [Prod.mk.injEq] at h
            obtain ⟨h1, _⟩ := h
            exact absurd h1 (by simp)
          | ok c1 =>
            simp only at h
            rcases hrec2 : extract_records fuel iso_meta mode rest root stx with ⟨res2, sty⟩
            rw [hrec2] at h
            cases res2 with
            | error e2 =>
              simp only [Prod.mk.injEq] at h
              obtain ⟨h1, _⟩ := h
              exact absurd h1 (by simp)
            | ok c2 =>
              simp only [Prod.mk.injEq, Except.ok.injEq] at h
              obtain ⟨h1, _⟩ := h
              subst h1
              have e1 := ih iso_meta mode sub (root ++ [en]) _ c1 stx hrec1
              have e2 := ih iso_meta mode rest root stx c2 sty hrec2
              simp only [countFiles, hdir, if_pos]
              omega
        | none =>
          simp only at h
          have e2 := ih iso_meta mode rest root _ c st2 h
          simp only [countFiles, hdir, if_pos]
          omega
      · rw [if_neg hdir] at h
        rcases hrec0 : extract_record iso_meta mode (.mk el er en esec esz ea esub) root st
          with ⟨res0, stx⟩
        rw [hrec0] at h
        cases res0 with
        | error e0 =>
          simp only [Prod.mk.injEq] at h
          obtain ⟨h1, _⟩ := h
          exact absurd h1 (by simp)
        | ok u =>
          simp only at h
          rcases hrec2 : extract_records fuel iso_meta mode rest root stx with ⟨res2, sty⟩
          rw [hrec2] at h
          cases res2 with
          | error e2 =>
            simp only [Prod.mk.injEq] at h
            obtain ⟨h1, _⟩ := h
            exact absurd h1 (by simp)
          | ok c2 =>
            simp only [Prod.mk.injEq, Except.ok.injEq] at h
            obtain ⟨h1, _⟩ := h
            subst h1
            have e2 := ih iso_meta mode rest root stx c2 sty hrec2
            rw [countFiles.eq_def]
            simp only [if_neg hdir]
            omega

/-- File entry of size 3 used by the C10 witness. -/
def c10entry : Record := .mk 0 0 [104] 0 3 0 none

/-- Initial state of the C10 witness: the remote size query answers with
the exact source size, so the file is skipped by the resume check. -/
def c10st : St := ⟨⟨[1, 2, 3], 0⟩, [], [], [], [.okSize 3], []⟩

/-- Witness for C10: a run whose only file is skipped by the remote resume
check still reports one extracted file, and transfers nothing. -/
theorem extract_records_count_includes_skipped_witness :
    (extract_records 5 cexMeta .FTP [c10entry] [] c10st).1 = .ok (countFiles [c10entry])
    ∧ writePayloads (extract_records 5 cexMeta .FTP [c10entry] [] c10st).2.trace = [] := by
  constructor
  · have h : extract_records 5 cexMeta .FTP [c10entry] [] c10st
        = (.ok 1, (extract_records 5 cexMeta .FTP [c10entry] [] c10st).2) := rfl
    have hc := extract_records_count_includes_skipped 5 cexMeta .FTP [c10entry] [] c10st 1
      (extract_records 5 cexMeta .FTP [c10entry] [] c10st).2 h
    rw [← hc]
    rfl
  · rfl
